import Mathlib

/-!
Shallow embedding of the `tl` query-selector parser
(`src/queryselector/parser.rs`, `src/util.rs`).

Bytes are modelled as `Nat` (the source works on `u8`; every byte of a real
input is `< 256`).  The byte-stream cursor and the selector expression tree
live in repository files outside `src/` and are modelled from the spec
(§4.A and §4.G); everything else is translated directly from the Rust
source.
-/

namespace TL

/-- `u8::is_ascii_digit`: `b'0'..=b'9'`. -/
def is_ascii_digit (c : Nat) : Bool := 48 ≤ c && c ≤ 57

/-- `u8::is_ascii_uppercase`: `b'A'..=b'Z'`. -/
def is_ascii_uppercase (c : Nat) : Bool := 65 ≤ c && c ≤ 90

/-- `u8::is_ascii_lowercase`: `b'a'..=b'z'`. -/
def is_ascii_lowercase (c : Nat) : Bool := 97 ≤ c && c ≤ 122

/-- `util::is_ident` (src/util.rs lines 1-11): ASCII digit, ASCII uppercase,
ASCII lowercase, or one of `-` `_` `:` `+` `/`. -/
def is_ident (c : Nat) : Bool :=
  is_ascii_digit c || is_ascii_uppercase c || is_ascii_lowercase c ||
    c == 45 || c == 95 || c == 58 || c == 43 || c == 47

/-- Modelled from the spec: the byte stream cursor (§4.A) holds `(buf, idx)`
with peek/advance/slice primitives; `stream.rs` itself is not in `src/`. -/
structure Stream where
  input : List Nat
  idx : Nat
  deriving DecidableEq, Repr

/-- Modelled from the spec (§4.A): end-of-input test. -/
def Stream.is_eof (s : Stream) : Bool := s.input.length ≤ s.idx

/-- Modelled from the spec (§4.A): peek the current byte, or none at EOF. -/
def Stream.current (s : Stream) : Option Nat := s.input[s.idx]?

/-- Modelled from the spec: `current_cpy` is the by-value copy of `current`
used throughout the selector parser. -/
def Stream.current_cpy (s : Stream) : Option Nat := s.current

/-- Modelled from the spec (§4.A): `idx += 1` if not EOF. -/
def Stream.advance (s : Stream) : Stream :=
  if s.is_eof then s else { s with idx := s.idx + 1 }

/-- Modelled from the spec (§4.A): `slice(a, b)` returns `buf[a..b]`. -/
def Stream.slice (s : Stream) (a b : Nat) : List Nat :=
  (s.input.drop a).take (b - a)

/-- Modelled from the spec (§4.A): advance iff the current byte equals `b`,
returning the matched byte on success. -/
def Stream.expect_and_skip (s : Stream) (b : Nat) : Option Nat × Stream :=
  match s.current with
  | some c => if c = b then (some c, s.advance) else (none, s)
  | none => (none, s)

/-- Modelled from the spec: boolean-result variant of `expect_and_skip`
used by `skip_whitespaces`. -/
def Stream.expect_and_skip_cond (s : Stream) (b : Nat) : Bool × Stream :=
  match s.expect_and_skip b with
  | (r, s') => (r.isSome, s')

/-- Modelled from the spec (§4.A): advance iff the current byte is in `set`,
returning the matched byte or none. -/
def Stream.expect_oneof_and_skip (s : Stream) (set : List Nat) :
    Option Nat × Stream :=
  match s.current with
  | some c => if c ∈ set then (some c, s.advance) else (none, s)
  | none => (none, s)

/-- Remaining input length, the termination measure for all scanning loops. -/
def Stream.rem (s : Stream) : Nat := s.input.length - s.idx

theorem not_is_eof_iff {s : Stream} : s.is_eof = false ↔ s.idx < s.input.length := by
  simp [Stream.is_eof]

theorem advance_input (s : Stream) : s.advance.input = s.input := by
  unfold Stream.advance; split <;> rfl

theorem advance_idx_le (s : Stream) : s.idx ≤ s.advance.idx := by
  unfold Stream.advance; split <;> simp

theorem advance_rem_lt {s : Stream} (h : s.is_eof = false) :
    s.advance.rem < s.rem := by
  have hlt := not_is_eof_iff.mp h
  unfold Stream.advance Stream.rem
  rw [if_neg (by simp [h])]
  simp only
  omega

theorem advance_rem_le (s : Stream) : s.advance.rem ≤ s.rem := by
  unfold Stream.advance Stream.rem
  split
  · exact Nat.le_refl _
  · simp only; omega

theorem current_eq_head_drop (s : Stream) :
    s.current = (s.input.drop s.idx).head? := by
  unfold Stream.current
  induction s.input generalizing s with
  | nil => simp
  | cons a l ih =>
    match s, s.idx with
    | ⟨_, _⟩, 0 => simp
    | ⟨_, _⟩, n+1 =>
      simpa using ih ⟨l, n⟩ (by simp)

theorem current_some_not_eof {s : Stream} {c : Nat} (h : s.current = some c) :
    s.is_eof = false := by
  unfold Stream.current at h
  have : s.idx < s.input.length := by
    by_contra hge
    rw [List.getElem?_eq_none (by omega)] at h
    exact Option.noConfusion h
  simpa [Stream.is_eof] using Nat.not_le.mpr this

theorem current_none_eof {s : Stream} (h : s.current = none) :
    s.is_eof = true := by
  unfold Stream.current at h
  by_contra hne
  have hlt : s.idx < s.input.length := by
    simp [Stream.is_eof] at hne; omega
  rw [List.getElem?_eq_getElem hlt] at h
  exact Option.noConfusion h

/-- The `while` loop of `Parser::skip_whitespaces` (parser.rs lines 20-24),
indexed by a step count: while not EOF, `expect_and_skip(b' ')` and break
when it fails.  Each continuing step advances the index, so `s.rem` steps
always suffice (see `skipLoop`). -/
def skipLoopF : Nat → Stream → Stream
  | 0, s => s
  | fuel + 1, s =>
    if s.is_eof then s
    else if s.current = some 32 then skipLoopF fuel s.advance
    else s

/-- The `while` loop of `Parser::skip_whitespaces`, run to completion: with
`s.rem` steps the count never runs out, because a step is taken only below
EOF and each one advances the index by exactly one. -/
def skipLoop (s : Stream) : Stream := skipLoopF s.rem s

theorem rem_zero_current_none {s : Stream} (h : s.rem = 0) :
    s.current = none := by
  unfold Stream.rem at h
  unfold Stream.current
  rw [List.getElem?_eq_none (by omega)]

theorem rem_advance_succ {s : Stream} (h : s.is_eof = false) :
    s.rem = s.advance.rem + 1 := by
  have hlt := not_is_eof_iff.mp h
  unfold Stream.rem Stream.advance
  rw [if_neg (by simp [h])]
  simp only
  omega

/-- `Parser::skip_whitespaces` (parser.rs lines 18-26): remember whether a
first space was skipped, then consume the rest of the space run. -/
def skip_whitespaces (s : Stream) : Bool × Stream :=
  match s.expect_and_skip_cond 32 with
  | (has_whitespace, s1) => (has_whitespace, skipLoop s1)

/-- The scanning loop of `Parser::read_identifier` (parser.rs lines 31-38),
indexed by a step count: advance while the current byte satisfies
`is_ident`. -/
def readIdentLoopF : Nat → Stream → Stream
  | 0, s => s
  | fuel + 1, s =>
    if s.is_eof then s
    else if (match s.current with
             | some c => is_ident c
             | none => false) = true then readIdentLoopF fuel s.advance
    else s

/-- The scanning loop of `Parser::read_identifier`, run to completion
(`s.rem` steps always suffice, as for `skipLoop`). -/
def readIdentLoop (s : Stream) : Stream := readIdentLoopF s.rem s

/-- `Parser::read_identifier` (parser.rs lines 28-41): scan a (possibly
empty) run of `is_ident` bytes and return the slice from the start index. -/
def read_identifier (s : Stream) : List Nat × Stream :=
  let start := s.idx
  let s' := readIdentLoop s
  (s'.slice start s'.idx, s')

/-- Modelled from the spec: the selector expression tree of §4.G
(`queryselector/mod.rs` is not in `src/`); constructors as listed there. -/
inductive Selector where
  | Tag (name : List Nat)
  | Id (name : List Nat)
  | Class (name : List Nat)
  | All
  | Attribute (name : List Nat)
  | AttributeValue (name value : List Nat)
  | AttributeValueWhitespacedContains (name value : List Nat)
  | AttributeValueStartsWith (name value : List Nat)
  | AttributeValueEndsWith (name value : List Nat)
  | AttributeValueSubstring (name value : List Nat)
  | And (a b : Selector)
  | Or (a b : Selector)
  | Descendant (a b : Selector)
  | Parent (a b : Selector)
  deriving DecidableEq, Repr

/-- Outcomes of the inner `match c` on the attribute operator byte in
`Parser::parse_attribute` (parser.rs lines 164-170), with `unreach` standing
for the `unreachable!()` arm. -/
inductive AttrOp where
  | whitespaced
  | starts
  | ends
  | substr
  | unreach
  deriving DecidableEq, Repr

/-- The inner `match c` of `Parser::parse_attribute` (parser.rs lines
164-170): `~` `^` `$` `*` pick an operator node, anything else is the
`unreachable!()` arm. -/
def attrOpDispatch (c : Nat) : AttrOp :=
  if c = 126 then .whitespaced
  else if c = 94 then .starts
  else if c = 36 then .ends
  else if c = 42 then .substr
  else .unreach

/-- `Parser::parse_attribute` (parser.rs lines 136-175).  The
`unreachable!()` arm is modelled as a parse failure and proved dead via
`attrOpDispatch`.  Byte values: `]` = 93, `=` = 61, `"` = 34, `'` = 39,
`~` = 126, `^` = 94, `$` = 36, `*` = 42. -/
def parse_attribute (s : Stream) : Option Selector × Stream :=
  match read_identifier s with
  | (attrName, s1) =>
    match s1.current_cpy with
    | some c =>
      if c = 93 then
        (some (.Attribute attrName), s1.advance)
      else if c = 61 then
        match s1.advance.expect_oneof_and_skip [34, 39] with
        | (quote, s3) =>
          match read_identifier s3 with
          | (value, s4) =>
            match quote with
            | some q =>
              match s4.expect_and_skip q with
              | (none, s5) => (none, s5)
              | (some _, s5) =>
                match s5.expect_and_skip 93 with
                | (none, s6) => (none, s6)
                | (some _, s6) => (some (.AttributeValue attrName value), s6)
            | none =>
              match s4.expect_and_skip 93 with
              | (none, s5) => (none, s5)
              | (some _, s5) => (some (.AttributeValue attrName value), s5)
      else if c = 126 ∨ c = 94 ∨ c = 36 ∨ c = 42 then
        match s1.advance.expect_and_skip 61 with
        | (none, s3) => (none, s3)
        | (some _, s3) =>
          match s3.expect_oneof_and_skip [34, 39] with
          | (quote, s4) =>
            match read_identifier s4 with
            | (value, s5) =>
              match (match quote with
                     | some q => s5.expect_and_skip q
                     | none => (some 0, s5)) with
              | (none, s6) => (none, s6)
              | (some _, s6) =>
                match s6.expect_and_skip 93 with
                | (none, s7) => (none, s7)
                | (some _, s7) =>
                  match attrOpDispatch c with
                  | .whitespaced =>
                    (some (.AttributeValueWhitespacedContains attrName value), s7)
                  | .starts =>
                    (some (.AttributeValueStartsWith attrName value), s7)
                  | .ends =>
                    (some (.AttributeValueEndsWith attrName value), s7)
                  | .substr =>
                    (some (.AttributeValueSubstring attrName value), s7)
                  | .unreach => (none, s7)
      else (none, s1)
    | none => (none, s1)

/-- One iteration of the `while let` match in
`Parser::parse_compound_selector` (parser.rs lines 101-124): dispatch on the
current byte (`#` = 35, `.` = 46, `*` = 42, `[` = 91, identifier). -/
def simpleStep (s : Stream) : Option Selector × Stream :=
  match s.current_cpy with
  | some c =>
    if c = 35 then
      match read_identifier s.advance with
      | (id, s') => (some (.Id id), s')
    else if c = 46 then
      match read_identifier s.advance with
      | (cls, s') => (some (.Class cls), s')
    else if c = 42 then
      (some .All, s.advance)
    else if c = 91 then
      parse_attribute s.advance
    else if is_ident c then
      match read_identifier s with
      | (tag, s') => (some (.Tag tag), s')
    else (none, s)
  | none => (none, s)

/-- Stream evolution: the input is untouched and the index never moves
backwards. -/
def Sle (s s' : Stream) : Prop :=
  s'.input = s.input ∧ s.idx ≤ s'.idx ∧ s'.idx ≤ max s.idx s.input.length

theorem Sle.refl {s : Stream} : Sle s s :=
  ⟨Eq.refl _, Nat.le_refl _, Nat.le_max_left _ _⟩

theorem Sle.trans {a b c : Stream} (h1 : Sle a b) (h2 : Sle b c) : Sle a c := by
  refine ⟨h2.1.trans h1.1, h1.2.1.trans h2.2.1, ?_⟩
  have e1 := congrArg List.length h1.1
  have := h1.2.2
  have := h2.2.2
  omega

theorem Sle.rem_le {s s' : Stream} (h : Sle s s') : s'.rem ≤ s.rem := by
  unfold Stream.rem
  rw [h.1]
  exact Nat.sub_le_sub_left h.2.1 _

theorem sle_advance (s : Stream) : Sle s s.advance := by
  unfold Sle Stream.advance
  split
  next heof => exact ⟨rfl, Nat.le_refl _, Nat.le_max_left _ _⟩
  next heof =>
    have hlt : s.idx < s.input.length := by
      simp [Stream.is_eof] at heof
      omega
    refine ⟨rfl, ?_, ?_⟩ <;> simp <;> omega

theorem expect_and_skip_sle (s : Stream) (b : Nat) :
    Sle s (s.expect_and_skip b).2 := by
  unfold Stream.expect_and_skip
  rcases h : s.current with _ | c
  · exact Sle.refl
  · dsimp only
    split
    · exact sle_advance s
    · exact Sle.refl

theorem expect_and_skip_cond_sle (s : Stream) (b : Nat) :
    Sle s (s.expect_and_skip_cond b).2 := by
  unfold Stream.expect_and_skip_cond
  exact expect_and_skip_sle s b

theorem expect_oneof_and_skip_sle (s : Stream) (set : List Nat) :
    Sle s (s.expect_oneof_and_skip set).2 := by
  unfold Stream.expect_oneof_and_skip
  rcases h : s.current with _ | c
  · exact Sle.refl
  · dsimp only
    split
    · exact sle_advance s
    · exact Sle.refl

theorem skipLoopF_sle : ∀ (fuel : Nat) (s : Stream), Sle s (skipLoopF fuel s) := by
  intro fuel
  induction fuel with
  | zero => intro s; exact Sle.refl
  | succ f ih =>
    intro s
    simp only [skipLoopF]
    split
    · exact Sle.refl
    · split
      · exact (sle_advance s).trans (ih s.advance)
      · exact Sle.refl

theorem skipLoop_sle (s : Stream) : Sle s (skipLoop s) := skipLoopF_sle s.rem s

theorem readIdentLoopF_sle :
    ∀ (fuel : Nat) (s : Stream), Sle s (readIdentLoopF fuel s) := by
  intro fuel
  induction fuel with
  | zero => intro s; exact Sle.refl
  | succ f ih =>
    intro s
    simp only [readIdentLoopF]
    split
    · exact Sle.refl
    · split
      · exact (sle_advance s).trans (ih s.advance)
      · exact Sle.refl

theorem readIdentLoop_sle (s : Stream) : Sle s (readIdentLoop s) :=
  readIdentLoopF_sle s.rem s

theorem skip_whitespaces_sle (s : Stream) : Sle s (skip_whitespaces s).2 := by
  unfold skip_whitespaces
  exact (expect_and_skip_cond_sle s 32).trans (skipLoop_sle _)

theorem read_identifier_sle (s : Stream) : Sle s (read_identifier s).2 :=
  readIdentLoop_sle s

theorem parse_attribute_sle (s : Stream) : Sle s (parse_attribute s).2 := by
  unfold parse_attribute
  have h1 := read_identifier_sle s
  rcases hri : read_identifier s with ⟨attrName, s1⟩
  rw [hri] at h1
  dsimp only
  rcases hc : s1.current_cpy with _ | c
  · exact h1
  · dsimp only
    split
    · exact h1.trans (sle_advance s1)
    · split
      · have h2 : Sle s1 (s1.advance.expect_oneof_and_skip [34, 39]).2 :=
          (sle_advance s1).trans (expect_oneof_and_skip_sle _ _)
        rcases hq : s1.advance.expect_oneof_and_skip [34, 39] with ⟨quote, s3⟩
        rw [hq] at h2
        dsimp only
        have h3 : Sle s3 (read_identifier s3).2 := read_identifier_sle s3
        rcases hv : read_identifier s3 with ⟨value, s4⟩
        rw [hv] at h3
        dsimp only
        have h4 := h1.trans (h2.trans h3)
        rcases quote with _ | q
        · dsimp only
          have h5 := expect_and_skip_sle s4 93
          rcases he : s4.expect_and_skip 93 with ⟨r5, s5⟩
          rw [he] at h5
          rcases r5 with _ | r5 <;> exact h4.trans h5
        · dsimp only
          have h5 := expect_and_skip_sle s4 q
          rcases he : s4.expect_and_skip q with ⟨r5, s5⟩
          rw [he] at h5
          rcases r5 with _ | r5
          · exact h4.trans h5
          · dsimp only
            have h6 := expect_and_skip_sle s5 93
            rcases he2 : s5.expect_and_skip 93 with ⟨r6, s6⟩
            rw [he2] at h6
            rcases r6 with _ | r6 <;> exact (h4.trans h5).trans h6
      · split
        · have h2 : Sle s1 (s1.advance.expect_and_skip 61).2 :=
            (sle_advance s1).trans (expect_and_skip_sle _ _)
          rcases he : s1.advance.expect_and_skip 61 with ⟨r3, s3⟩
          rw [he] at h2
          rcases r3 with _ | r3
          · exact h1.trans h2
          · dsimp only
            have h3 := expect_oneof_and_skip_sle s3 [34, 39]
            rcases hq : s3.expect_oneof_and_skip [34, 39] with ⟨quote, s4⟩
            rw [hq] at h3
            dsimp only
            have h4 := read_identifier_sle s4
            rcases hv : read_identifier s4 with ⟨value, s5⟩
            rw [hv] at h4
            dsimp only
            have hbase := ((h1.trans h2).trans h3).trans h4
            rcases quote with _ | q
            · dsimp only
              have h6 := expect_and_skip_sle s5 93
              rcases he2 : s5.expect_and_skip 93 with ⟨r7, s7⟩
              rw [he2] at h6
              rcases r7 with _ | r7
              · exact hbase.trans h6
              · dsimp only
                split <;> exact hbase.trans h6
            · dsimp only
              have h5 := expect_and_skip_sle s5 q
              rcases he1 : s5.expect_and_skip q with ⟨r6, s6⟩
              rw [he1] at h5
              rcases r6 with _ | r6
              · exact hbase.trans h5
              · dsimp only
                have h6 := expect_and_skip_sle s6 93
                rcases he2 : s6.expect_and_skip 93 with ⟨r7, s7⟩
                rw [he2] at h6
                rcases r7 with _ | r7
                · exact (hbase.trans h5).trans h6
                · dsimp only
                  split <;> exact (hbase.trans h5).trans h6
        · exact h1

theorem simpleStep_sle (s : Stream) : Sle s (simpleStep s).2 := by
  unfold simpleStep
  rcases hc : s.current_cpy with _ | c
  · exact Sle.refl
  · dsimp only
    split
    · have := read_identifier_sle s.advance
      rcases h : read_identifier s.advance with ⟨id, s'⟩
      rw [h] at this
      exact (sle_advance s).trans this
    · split
      · have := read_identifier_sle s.advance
        rcases h : read_identifier s.advance with ⟨cls, s'⟩
        rw [h] at this
        exact (sle_advance s).trans this
      · split
        · exact sle_advance s
        · split
          · exact (sle_advance s).trans (parse_attribute_sle _)
          · split
            · have := read_identifier_sle s
              rcases h : read_identifier s with ⟨tag, s'⟩
              rw [h] at this
              exact this
            · exact Sle.refl

theorem rem_lt_of_advance_sle {s t : Stream} (h : s.is_eof = false)
    (hle : Sle s.advance t) : t.rem < s.rem :=
  Nat.lt_of_le_of_lt hle.rem_le (advance_rem_lt h)

/-- A step of the compound loop that yields a simple selector strictly
consumes input. -/
theorem simpleStep_progress {s : Stream} {r : Selector} {s' : Stream}
    (h : simpleStep s = (some r, s')) :
    s'.input = s.input ∧ s'.rem < s.rem := by
  have hsle := simpleStep_sle s
  rw [h] at hsle
  refine ⟨hsle.1, ?_⟩
  unfold simpleStep at h
  rcases hc : s.current_cpy with _ | c <;> rw [hc] at h
  · exact absurd (congrArg Prod.fst h) (by simp)
  · have heof : s.is_eof = false := current_some_not_eof hc
    dsimp only at h
    split at h
    · rcases hri : read_identifier s.advance with ⟨id, t⟩
      rw [hri] at h
      have := read_identifier_sle s.advance
      rw [hri] at this
      cases h
      exact rem_lt_of_advance_sle heof this
    · split at h
      · rcases hri : read_identifier s.advance with ⟨cls, t⟩
        rw [hri] at h
        have := read_identifier_sle s.advance
        rw [hri] at this
        cases h
        exact rem_lt_of_advance_sle heof this
      · split at h
        · cases h
          exact advance_rem_lt heof
        · split at h
          · have := parse_attribute_sle s.advance
            rw [h] at this
            exact rem_lt_of_advance_sle heof this
          · split at h
            · rcases hri : read_identifier s with ⟨tag, t⟩
              rw [hri] at h
              cases h
              -- the current byte satisfies `is_ident`, so the identifier
              -- loop advances at least once
              have hcur : s.current = some c := hc
              have hstep : readIdentLoop s = readIdentLoop s.advance := by
                unfold readIdentLoop
                rw [rem_advance_succ heof]
                simp only [readIdentLoopF]
                rw [if_neg (by simp [heof]),
                  if_pos (by rw [hcur]; show is_ident c = true; assumption)]
              have hts : readIdentLoop s = t := congrArg Prod.snd hri
              rw [← hts, hstep]
              exact rem_lt_of_advance_sle heof (readIdentLoop_sle s.advance)
            · exact absurd (congrArg Prod.fst h) (by simp)

/-- The `while let` loop of `Parser::parse_compound_selector` (parser.rs
lines 101-131), indexed by a step count: accumulate simple selectors with
`And`, stopping at the first byte that is not a simple selector.  Each
continuing step strictly advances the index (`simpleStep_progress`), so
`s.rem` steps always suffice; at zero remaining bytes the loop body would
stop anyway. -/
def compoundLoopF : Nat → Option Selector → Stream → Option Selector × Stream
  | 0, result, s => (result, s)
  | fuel + 1, result, s =>
    match simpleStep s with
    | (none, s') => (result, s')
    | (some right, s') =>
      compoundLoopF fuel (some (match result with
                                | some left => Selector.And left right
                                | none => right)) s'

/-- The `while let` loop of `Parser::parse_compound_selector`, run to
completion. -/
def compoundLoop (result : Option Selector) (s : Stream) :
    Option Selector × Stream :=
  compoundLoopF s.rem result s

theorem simpleStep_at_rem_zero {s : Stream} (hr : s.rem = 0) :
    simpleStep s = (none, s) := by
  have hcn : s.current = none := rem_zero_current_none hr
  unfold simpleStep Stream.current_cpy
  rw [hcn]

theorem compoundLoopF_irrel :
    ∀ (f1 : Nat) (res : Option Selector) (s : Stream) (f2 : Nat),
      s.rem ≤ f1 → s.rem ≤ f2 →
      compoundLoopF f1 res s = compoundLoopF f2 res s := by
  intro f1
  induction f1 with
  | zero =>
    intro res s f2 h1 h2
    have hstep := simpleStep_at_rem_zero (s := s) (by omega)
    rcases f2 with _ | g
    · rfl
    · simp only [compoundLoopF]
      rw [hstep]
  | succ a ih =>
    intro res s f2 h1 h2
    rcases f2 with _ | b
    · have hstep := simpleStep_at_rem_zero (s := s) (by omega)
      simp only [compoundLoopF]
      rw [hstep]
    · simp only [compoundLoopF]
      rcases hss : simpleStep s with ⟨ro, t⟩
      rcases ro with _ | r
      · rfl
      · have hprog := (simpleStep_progress hss).2
        exact ih _ t b (by omega) (by omega)

/-- `Parser::parse_compound_selector` (parser.rs lines 97-134). -/
def parse_compound_selector (s : Stream) : Option Selector × Stream :=
  match skip_whitespaces s with
  | (_, s1) => compoundLoop none s1

/-- Outcomes of the combinator `match tok` in
`Parser::parse_complex_selector` (parser.rs lines 69-88), with `unreach`
standing for the `unreachable!()` arm. -/
inductive ComplexStep where
  | comma
  | parent
  | descend
  | conj
  | unreach
  deriving DecidableEq, Repr

/-- The combinator dispatch of `Parser::parse_complex_selector` (parser.rs
lines 69-88), arms in source order: `b','`, `b'>'`, `_ if has_whitespaces`,
`_ if !has_whitespaces`, `_ => unreachable!()`.  Byte values: `,` = 44,
`>` = 62. -/
def complexDispatch (tok : Nat) (has_whitespaces : Bool) : ComplexStep :=
  if tok = 44 then .comma
  else if tok = 62 then .parent
  else if has_whitespaces = true then .descend
  else if has_whitespaces = false then .conj
  else .unreach

mutual

/-- `Parser::parse_complex_selector` (parser.rs lines 60-92).  The Rust
recursion is modelled with a step-count (`fuel`); the outer `none` means
the count ran out (proved impossible for enough fuel), while
`some (none, s)` is the Rust `None` return (the `?` failures), carrying the
final stream state of the `&mut self` parser. -/
def parse_complex_selector : Nat → Bool → Stream → Option (Option Selector × Stream)
  | 0, _, _ => none
  | fuel + 1, nested, s =>
    match parse_compound_selector s with
    | (none, s1) => some (none, s1)
    | (some left, s1) =>
      match skip_whitespaces s1 with
      | (has_whitespaces, s2) =>
        if nested then some (some left, s2)
        else complexLoop fuel left has_whitespaces s2

/-- The `while let` loop of `Parser::parse_complex_selector` (parser.rs
lines 68-89).  `has_whitespaces` is the flag computed once before the loop
and never updated.  The `unreachable!()` arm surfaces as the outer `none`
and is proved dead via `complexDispatch`. -/
def complexLoop : Nat → Selector → Bool → Stream → Option (Option Selector × Stream)
  | 0, _, _, _ => none
  | fuel + 1, left, has_whitespaces, s =>
    match s.current_cpy with
    | none => some (some left, s)
    | some tok =>
      match complexDispatch tok has_whitespaces with
      | .comma => some (some left, s.advance)
      | .parent =>
        match parse_complex_selector fuel true s.advance with
        | none => none
        | some (none, s') => some (none, s')
        | some (some right, s') =>
          complexLoop fuel (.Parent left right) has_whitespaces s'
      | .descend =>
        match parse_complex_selector fuel true s with
        | none => none
        | some (none, s') => some (none, s')
        | some (some right, s') =>
          complexLoop fuel (.Descendant left right) has_whitespaces s'
      | .conj =>
        match parse_complex_selector fuel true s with
        | none => none
        | some (none, s') => some (none, s')
        | some (some right, s') =>
          complexLoop fuel (.And left right) has_whitespaces s'
      | .unreach => none

end

/-- The `while let` loop of `Parser::selector` (parser.rs lines 50-52):
fold further complex selectors into a left-associated `Or`. -/
def selectorLoop : Nat → Selector → Stream → Option (Option Selector × Stream)
  | 0, _, _ => none
  | fuel + 1, left, s =>
    match parse_complex_selector fuel false s with
    | none => none
    | some (none, s') => some (some left, s')
    | some (some right, s') => selectorLoop fuel (.Or left right) s'

/-- `Parser::selector` (parser.rs lines 47-55): parse the selector list.
The result's first component mirrors the Rust `Option<Selector>`. -/
def selector : Nat → Stream → Option (Option Selector × Stream)
  | 0, _ => none
  | fuel + 1, s =>
    match parse_complex_selector fuel false s with
    | none => none
    | some (none, s') => some (none, s')
    | some (some left, s') => selectorLoop fuel left s'

/-- Fuel that always suffices for `selector` (proved below). -/
def selectorBound (input : List Nat) : Nat := 2 * input.length + 4

/-- Run `Parser::new(input)` followed by `Parser::selector()`. -/
def run_selector (input : List Nat) : Option (Option Selector × Stream) :=
  selector (selectorBound input) { input := input, idx := 0 }

/-- String-literal convenience: the byte list of an ASCII string. -/
def bytes (s : String) : List Nat := s.data.map Char.toNat

/-! ### Unfolding lemmas for the scanning loops -/

theorem skipLoop_advance {s : Stream} (h : s.current = some 32) :
    skipLoop s = skipLoop s.advance := by
  have heof : s.is_eof = false := current_some_not_eof h
  unfold skipLoop
  rw [rem_advance_succ heof]
  simp only [skipLoopF]
  rw [if_neg (by simp [heof]), if_pos h]

theorem skipLoop_stop {s : Stream} (h : s.current ≠ some 32) :
    skipLoop s = s := by
  unfold skipLoop
  rcases hr : s.rem with _ | f
  · rfl
  · simp only [skipLoopF]
    split <;> first
      | rfl
      | exact absurd (by assumption) h

theorem readIdentLoop_advance {s : Stream} {c : Nat} (h : s.current = some c)
    (hid : is_ident c = true) : readIdentLoop s = readIdentLoop s.advance := by
  have heof : s.is_eof = false := current_some_not_eof h
  unfold readIdentLoop
  rw [rem_advance_succ heof]
  simp only [readIdentLoopF]
  rw [if_neg (by simp [heof]), if_pos (by rw [h]; exact hid)]

theorem readIdentLoop_stop {s : Stream}
    (h : (match s.current with
          | some c => is_ident c
          | none => false) = false) : readIdentLoop s = s := by
  unfold readIdentLoop
  rcases hr : s.rem with _ | f
  · rfl
  · simp only [readIdentLoopF]
    split
    all_goals try rfl
    next hcond => rw [if_neg (by simp [h])]

theorem compoundLoop_none {res : Option Selector} {s t : Stream}
    (hss : simpleStep s = (none, t)) : compoundLoop res s = (res, t) := by
  unfold compoundLoop
  rcases hr : s.rem with _ | f
  · have hstep := simpleStep_at_rem_zero hr
    rw [hstep] at hss
    have ht : s = t := congrArg Prod.snd hss
    rw [← ht]
    rfl
  · simp only [compoundLoopF]
    rw [hss]

theorem compoundLoop_some {res : Option Selector} {s t : Stream}
    {r : Selector} (hss : simpleStep s = (some r, t)) :
    compoundLoop res s =
      compoundLoop (some (match res with
                          | some left => Selector.And left r
                          | none => r)) t := by
  unfold compoundLoop
  rcases hr : s.rem with _ | f
  · have hstep := simpleStep_at_rem_zero hr
    rw [hstep] at hss
    exact absurd (congrArg Prod.fst hss) (by simp)
  · simp only [compoundLoopF]
    rw [hss]
    have hprog := (simpleStep_progress hss).2
    rw [hr] at hprog
    exact compoundLoopF_irrel f _ t t.rem (by omega) (Nat.le_refl _)

/-! ### Monotonicity and progress for the compound-selector layer -/

theorem compoundLoop_sle_aux :
    ∀ (n : Nat) (res : Option Selector) (s : Stream), s.rem ≤ n →
      Sle s (compoundLoop res s).2 := by
  intro n
  induction n with
  | zero =>
    intro res s hn
    rcases hss : simpleStep s with ⟨ro, t⟩
    have hsle := simpleStep_sle s
    rw [hss] at hsle
    rcases ro with _ | r
    · rw [compoundLoop_none hss]
      exact hsle
    · have := (simpleStep_progress hss).2
      omega
  | succ k ih =>
    intro res s hn
    rcases hss : simpleStep s with ⟨ro, t⟩
    have hsle := simpleStep_sle s
    rw [hss] at hsle
    rcases ro with _ | r
    · rw [compoundLoop_none hss]
      exact hsle
    · rw [compoundLoop_some hss]
      have hp := (simpleStep_progress hss).2
      exact hsle.trans (ih _ t (by omega))

theorem compoundLoop_sle (res : Option Selector) (s : Stream) :
    Sle s (compoundLoop res s).2 :=
  compoundLoop_sle_aux s.rem res s (Nat.le_refl _)

theorem compoundLoop_acc_isSome_aux :
    ∀ (n : Nat) (res : Option Selector) (s : Stream), s.rem ≤ n →
      res.isSome = true → (compoundLoop res s).1.isSome = true := by
  intro n
  induction n with
  | zero =>
    intro res s hn hres
    rcases hss : simpleStep s with ⟨ro, t⟩
    rcases ro with _ | r
    · rw [compoundLoop_none hss]
      exact hres
    · have := (simpleStep_progress hss).2
      omega
  | succ k ih =>
    intro res s hn hres
    rcases hss : simpleStep s with ⟨ro, t⟩
    rcases ro with _ | r
    · rw [compoundLoop_none hss]
      exact hres
    · rw [compoundLoop_some hss]
      have hp := (simpleStep_progress hss).2
      exact ih _ t (by omega) (by rcases res with _ | l <;> simp)

theorem parse_compound_selector_sle (s : Stream) :
    Sle s (parse_compound_selector s).2 := by
  unfold parse_compound_selector
  rcases hsw : skip_whitespaces s with ⟨b, s1⟩
  have h1 := skip_whitespaces_sle s
  rw [hsw] at h1
  exact h1.trans (compoundLoop_sle none s1)

/-- A compound selector that parses strictly consumes input. -/
theorem compound_progress {s : Stream} {r : Selector} {s' : Stream}
    (h : parse_compound_selector s = (some r, s')) : s'.rem < s.rem := by
  unfold parse_compound_selector at h
  rcases hsw : skip_whitespaces s with ⟨b, s1⟩
  rw [hsw] at h
  have h1 : Sle s s1 := by
    have := skip_whitespaces_sle s
    rw [hsw] at this
    exact this
  dsimp only at h
  rcases hss : simpleStep s1 with ⟨ro, t⟩
  rcases ro with _ | rr
  · rw [compoundLoop_none hss] at h
    exact absurd (congrArg Prod.fst h) (by simp)
  · rw [compoundLoop_some hss] at h
    have hp := (simpleStep_progress hss).2
    have hsle : Sle t s' := by
      have := compoundLoop_sle (some rr) t
      rw [h] at this
      exact this
    have := hsle.rem_le
    have := h1.rem_le
    omega

/-! ### The `unreachable!()` dispatch arms are dead -/

theorem complexDispatch_ne_unreach (tok : Nat) (hw : Bool) :
    complexDispatch tok hw ≠ ComplexStep.unreach := by
  unfold complexDispatch
  split
  · simp
  · split
    · simp
    · cases hw <;> simp

theorem attrOpDispatch_ne_unreach {c : Nat}
    (h : c = 126 ∨ c = 94 ∨ c = 36 ∨ c = 42) :
    attrOpDispatch c ≠ AttrOp.unreach := by
  rcases h with rfl | rfl | rfl | rfl <;> simp [attrOpDispatch]

/-! ### Monotonicity of the complex-selector layer -/

theorem complex_sle :
    ∀ fuel : Nat,
      (∀ nested s r s', parse_complex_selector fuel nested s = some (r, s') →
        Sle s s') ∧
      (∀ left hw s r s', complexLoop fuel left hw s = some (r, s') →
        Sle s s') := by
  intro fuel
  induction fuel with
  | zero =>
    constructor
    · intro nested s r s' h
      simp [parse_complex_selector] at h
    · intro left hw s r s' h
      simp [complexLoop] at h
  | succ f ih =>
    obtain ⟨ihc, ihl⟩ := ih
    constructor
    · intro nested s r s' h
      simp only [parse_complex_selector] at h
      rcases hcp : parse_compound_selector s with ⟨ro, s1⟩
      rw [hcp] at h
      have hs1 : Sle s s1 := by
        have := parse_compound_selector_sle s
        rw [hcp] at this
        exact this
      rcases ro with _ | left
      · simp only [Option.some.injEq, Prod.mk.injEq] at h
        obtain ⟨-, rfl⟩ := h
        exact hs1
      · dsimp only at h
        rcases hsw : skip_whitespaces s1 with ⟨hw, s2⟩
        rw [hsw] at h
        have hs2 : Sle s1 s2 := by
          have := skip_whitespaces_sle s1
          rw [hsw] at this
          exact this
        dsimp only at h
        split at h
        · simp only [Option.some.injEq, Prod.mk.injEq] at h
          obtain ⟨-, rfl⟩ := h
          exact hs1.trans hs2
        · exact (hs1.trans hs2).trans (ihl _ _ _ _ _ h)
    · intro left hw s r s' h
      simp only [complexLoop] at h
      rcases hc : s.current_cpy with _ | tok
      · rw [hc] at h
        simp only [Option.some.injEq, Prod.mk.injEq] at h
        obtain ⟨-, rfl⟩ := h
        exact Sle.refl
      · rw [hc] at h
        dsimp only at h
        rcases hd : complexDispatch tok hw with _ | _ | _ | _ | _ <;> rw [hd] at h
        · -- comma
          simp only [Option.some.injEq, Prod.mk.injEq] at h
          obtain ⟨-, rfl⟩ := h
          exact sle_advance s
        · -- parent
          rcases hpc : parse_complex_selector f true s.advance with _ | ⟨ro, t⟩ <;>
            rw [hpc] at h
          · exact absurd h (by simp)
          · have hadv : Sle s t :=
              (sle_advance s).trans (ihc _ _ _ _ hpc)
            rcases ro with _ | right
            · simp only [Option.some.injEq, Prod.mk.injEq] at h
              obtain ⟨-, rfl⟩ := h
              exact hadv
            · exact hadv.trans (ihl _ _ _ _ _ h)
        · -- descend
          rcases hpc : parse_complex_selector f true s with _ | ⟨ro, t⟩ <;>
            rw [hpc] at h
          · exact absurd h (by simp)
          · have hadv : Sle s t := ihc _ _ _ _ hpc
            rcases ro with _ | right
            · simp only [Option.some.injEq, Prod.mk.injEq] at h
              obtain ⟨-, rfl⟩ := h
              exact hadv
            · exact hadv.trans (ihl _ _ _ _ _ h)
        · -- conj
          rcases hpc : parse_complex_selector f true s with _ | ⟨ro, t⟩ <;>
            rw [hpc] at h
          · exact absurd h (by simp)
          · have hadv : Sle s t := ihc _ _ _ _ hpc
            rcases ro with _ | right
            · simp only [Option.some.injEq, Prod.mk.injEq] at h
              obtain ⟨-, rfl⟩ := h
              exact hadv
            · exact hadv.trans (ihl _ _ _ _ _ h)
        · -- unreach
          exact absurd h (by simp)

/-- A complex selector that parses strictly consumes input. -/
theorem complex_progress {fuel : Nat} {nested : Bool} {s : Stream}
    {r : Selector} {s' : Stream}
    (h : parse_complex_selector fuel nested s = some (some r, s')) :
    s'.rem < s.rem := by
  rcases fuel with _ | f
  · simp [parse_complex_selector] at h
  · simp only [parse_complex_selector] at h
    rcases hcp : parse_compound_selector s with ⟨ro, s1⟩
    rw [hcp] at h
    rcases ro with _ | left
    · simp at h
    · have h1 : s1.rem < s.rem := compound_progress hcp
      dsimp only at h
      rcases hsw : skip_whitespaces s1 with ⟨hw, s2⟩
      rw [hsw] at h
      have h2 : Sle s1 s2 := by
        have := skip_whitespaces_sle s1
        rw [hsw] at this
        exact this
      dsimp only at h
      split at h
      · simp only [Option.some.injEq, Prod.mk.injEq] at h
        obtain ⟨-, rfl⟩ := h
        have := h2.rem_le
        omega
      · have h3 : Sle s2 s' := (complex_sle f).2 _ _ _ _ _ h
        have := h2.rem_le
        have := h3.rem_le
        omega

/-! ### Fuel sufficiency: the parser terminates within a linear bound -/

/-- A nested complex-selector parse (the recursive calls of the loop) uses
a single fuel step. -/
theorem complex_nested_fuel {fuel : Nat} (hf : 1 ≤ fuel) (s : Stream) :
    (parse_complex_selector fuel true s).isSome = true := by
  rcases fuel with _ | f
  · omega
  · simp only [parse_complex_selector]
    rcases hcp : parse_compound_selector s with ⟨ro, s1⟩
    rcases ro with _ | left
    · simp
    · rcases hsw : skip_whitespaces s1 with ⟨hw, s2⟩
      simp

theorem complexLoop_fuel :
    ∀ (fuel : Nat) (left : Selector) (hw : Bool) (s : Stream),
      s.rem + 1 ≤ fuel → (complexLoop fuel left hw s).isSome = true := by
  intro fuel
  induction fuel with
  | zero => intro left hw s h; omega
  | succ f ih =>
    intro left hw s h
    simp only [complexLoop]
    rcases hc : s.current_cpy with _ | tok
    · simp
    · have heof : s.is_eof = false := current_some_not_eof hc
      have hrem : 1 ≤ s.rem := by
        have := not_is_eof_iff.mp heof
        unfold Stream.rem
        omega
      dsimp only
      rcases hd : complexDispatch tok hw with _ | _ | _ | _ | _
      · simp
      · -- parent: the nested parse starts past the consumed `>`
        have hn := complex_nested_fuel (show 1 ≤ f by omega) s.advance
        rcases hpc : parse_complex_selector f true s.advance with _ | ⟨ro, t⟩
        · rw [hpc] at hn
          simp at hn
        · rcases ro with _ | right
          · simp
          · dsimp only
            have hprog : t.rem < s.advance.rem := complex_progress hpc
            have hadv : s.advance.rem < s.rem := advance_rem_lt heof
            exact ih _ hw t (by omega)
      · -- descend: the nested parse starts at the current byte
        have hn := complex_nested_fuel (show 1 ≤ f by omega) s
        rcases hpc : parse_complex_selector f true s with _ | ⟨ro, t⟩
        · rw [hpc] at hn
          simp at hn
        · rcases ro with _ | right
          · simp
          · dsimp only
            have hprog : t.rem < s.rem := complex_progress hpc
            exact ih _ hw t (by omega)
      · -- conj
        have hn := complex_nested_fuel (show 1 ≤ f by omega) s
        rcases hpc : parse_complex_selector f true s with _ | ⟨ro, t⟩
        · rw [hpc] at hn
          simp at hn
        · rcases ro with _ | right
          · simp
          · dsimp only
            have hprog : t.rem < s.rem := complex_progress hpc
            exact ih _ hw t (by omega)
      · exact absurd hd (complexDispatch_ne_unreach tok hw)

theorem complex_fuel {fuel : Nat} {s : Stream} (hf : s.rem + 2 ≤ fuel)
    (nested : Bool) :
    (parse_complex_selector fuel nested s).isSome = true := by
  rcases fuel with _ | f
  · omega
  · simp only [parse_complex_selector]
    rcases hcp : parse_compound_selector s with ⟨ro, s1⟩
    rcases ro with _ | left
    · simp
    · dsimp only
      rcases hsw : skip_whitespaces s1 with ⟨hw, s2⟩
      dsimp only
      rcases nested with _ | _
      · simp only [Bool.false_eq_true, if_false]
        have hp : s1.rem < s.rem := compound_progress hcp
        have hsk : Sle s1 s2 := by
          have := skip_whitespaces_sle s1
          rw [hsw] at this
          exact this
        have := hsk.rem_le
        exact complexLoop_fuel f left hw s2 (by omega)
      · simp

theorem selectorLoop_fuel :
    ∀ (fuel : Nat) (left : Selector) (s : Stream),
      2 * s.rem + 3 ≤ fuel → (selectorLoop fuel left s).isSome = true := by
  intro fuel
  induction fuel with
  | zero => intro left s h; omega
  | succ f ih =>
    intro left s h
    simp only [selectorLoop]
    have hc := complex_fuel (show s.rem + 2 ≤ f by omega) false
    rcases hpc : parse_complex_selector f false s with _ | ⟨ro, t⟩
    · rw [hpc] at hc
      simp at hc
    · rcases ro with _ | right
      · simp
      · dsimp only
        have hprog : t.rem < s.rem := complex_progress hpc
        exact ih _ t (by omega)

theorem selector_fuel {fuel : Nat} {s : Stream} (hf : 2 * s.rem + 4 ≤ fuel) :
    (selector fuel s).isSome = true := by
  rcases fuel with _ | f
  · omega
  · simp only [selector]
    have hc := complex_fuel (show s.rem + 2 ≤ f by omega) false
    rcases hpc : parse_complex_selector f false s with _ | ⟨ro, t⟩
    · rw [hpc] at hc
      simp at hc
    · rcases ro with _ | left
      · simp
      · dsimp only
        have hprog : t.rem < s.rem := complex_progress hpc
        exact selectorLoop_fuel f left t (by omega)

theorem selector_sle :
    ∀ (fuel : Nat),
      (∀ s r s', selector fuel s = some (r, s') → Sle s s') ∧
      (∀ left s r s', selectorLoop fuel left s = some (r, s') → Sle s s') := by
  intro fuel
  induction fuel with
  | zero =>
    constructor
    · intro s r s' h
      simp [selector] at h
    · intro left s r s' h
      simp [selectorLoop] at h
  | succ f ih =>
    obtain ⟨ihs, ihl⟩ := ih
    constructor
    · intro s r s' h
      simp only [selector] at h
      rcases hpc : parse_complex_selector f false s with _ | ⟨ro, t⟩ <;>
        rw [hpc] at h
      · exact absurd h (by simp)
      · have h1 : Sle s t := (complex_sle f).1 _ _ _ _ hpc
        rcases ro with _ | left
        · simp only [Option.some.injEq, Prod.mk.injEq] at h
          obtain ⟨-, rfl⟩ := h
          exact h1
        · exact h1.trans (ihl _ _ _ _ h)
    · intro left s r s' h
      simp only [selectorLoop] at h
      rcases hpc : parse_complex_selector f false s with _ | ⟨ro, t⟩ <;>
        rw [hpc] at h
      · exact absurd h (by simp)
      · have h1 : Sle s t := (complex_sle f).1 _ _ _ _ hpc
        rcases ro with _ | right
        · simp only [Option.some.injEq, Prod.mk.injEq] at h
          obtain ⟨-, rfl⟩ := h
          exact h1
        · exact h1.trans (ihl _ _ _ _ h)

/-- `Parser::selector` always returns within the linear fuel bound. -/
theorem run_selector_total (input : List Nat) :
    ∃ (r : Option Selector) (s' : Stream),
      run_selector input = some (r, s') ∧ s'.input = input ∧
        s'.idx ≤ input.length := by
  have h0 : (Stream.mk input 0).rem = input.length := by
    simp [Stream.rem]
  have ht : (selector (selectorBound input) (Stream.mk input 0)).isSome = true := by
    refine selector_fuel ?_
    rw [h0]
    unfold selectorBound
    omega
  rcases hres : selector (selectorBound input) (Stream.mk input 0) with _ | ⟨r, s'⟩
  · rw [hres] at ht
    simp at ht
  · have hsle : Sle (Stream.mk input 0) s' :=
      (selector_sle (selectorBound input)).1 _ _ _ hres
    refine ⟨r, s', hres, hsle.1, ?_⟩
    have hb := hsle.2.2
    simpa using hb

/-! ### Pointwise evaluation lemmas, phrased through `input.drop idx` -/

theorem drop_succ_of_drop_cons {I : List Nat} {i c : Nat} {t : List Nat}
    (h : I.drop i = c :: t) : I.drop (i + 1) = t := by
  have h1 : I.drop (i + 1) = (I.drop i).drop 1 := by
    rw [List.drop_drop]
  rw [h1, h]
  rfl

theorem drop_shift {I : List Nat} {i : Nat} {X rest : List Nat}
    (h : I.drop i = X ++ rest) : I.drop (i + X.length) = rest := by
  have h1 : I.drop (i + X.length) = (I.drop i).drop X.length := by
    rw [List.drop_drop, Nat.add_comm]
  rw [h1, h, List.drop_left]

theorem current_of_drop {s : Stream} {c : Nat} {t : List Nat}
    (h : s.input.drop s.idx = c :: t) : s.current = some c := by
  rw [current_eq_head_drop, h]
  rfl

theorem current_of_drop_nil {s : Stream} (h : s.input.drop s.idx = []) :
    s.current = none := by
  rw [current_eq_head_drop, h]
  rfl

theorem advance_eq {s : Stream} (h : s.is_eof = false) :
    s.advance = { s with idx := s.idx + 1 } := by
  unfold Stream.advance
  rw [if_neg (by simp [h])]

theorem advance_of_drop {s : Stream} {c : Nat} {t : List Nat}
    (h : s.input.drop s.idx = c :: t) :
    s.advance = { s with idx := s.idx + 1 } :=
  advance_eq (current_some_not_eof (current_of_drop h))

theorem skipLoop_spec :
    ∀ (k : Nat) (s : Stream) (rest : List Nat),
      s.input.drop s.idx = List.replicate k 32 ++ rest →
      rest.head? ≠ some 32 →
      skipLoop s = { s with idx := s.idx + k } := by
  intro k
  induction k with
  | zero =>
    intro s rest hd hstop
    simp only [List.replicate, List.nil_append] at hd
    have hcur : s.current ≠ some 32 := by
      rw [current_eq_head_drop, hd]
      exact hstop
    rw [skipLoop_stop hcur]
    cases s
    simp
  | succ k ih =>
    intro s rest hd hstop
    have hd' : s.input.drop s.idx = 32 :: (List.replicate k 32 ++ rest) := by
      simpa [List.replicate_succ] using hd
    have hcur : s.current = some 32 := current_of_drop hd'
    rw [skipLoop_advance hcur]
    have hadv : s.advance = { s with idx := s.idx + 1 } := advance_of_drop hd'
    rw [hadv]
    have hd2 : ({ s with idx := s.idx + 1 } : Stream).input.drop
        ({ s with idx := s.idx + 1 } : Stream).idx =
        List.replicate k 32 ++ rest := by
      simpa using drop_succ_of_drop_cons hd'
    have := ih { s with idx := s.idx + 1 } rest hd2 hstop
    rw [this]
    simp
    omega

theorem skip_whitespaces_spec {s : Stream} {k : Nat} {rest : List Nat}
    (hd : s.input.drop s.idx = List.replicate k 32 ++ rest)
    (hstop : rest.head? ≠ some 32) :
    skip_whitespaces s = (decide (0 < k), { s with idx := s.idx + k }) := by
  unfold skip_whitespaces Stream.expect_and_skip_cond Stream.expect_and_skip
  rcases k with _ | k
  · simp only [List.replicate, List.nil_append] at hd
    have hcur : s.current = rest.head? := by
      rw [current_eq_head_drop, hd]
    rcases hh : rest.head? with _ | b
    · rw [hcur, hh]
      dsimp only
      rw [skipLoop_stop (by rw [hcur, hh]; simp)]
      simp only [Option.isSome_none, decide_eq_true_eq]
      refine Prod.ext ?_ ?_ <;> simp
    · rw [hcur, hh]
      have hb : b ≠ 32 := by
        intro hcontra
        rw [hcontra] at hh
        exact hstop hh
      dsimp only
      rw [if_neg hb]
      dsimp only
      rw [skipLoop_stop (by rw [hcur, hh]; simpa using hb)]
      refine Prod.ext ?_ ?_ <;> simp
  · have hd' : s.input.drop s.idx = 32 :: (List.replicate k 32 ++ rest) := by
      simpa [List.replicate_succ] using hd
    have hcur : s.current = some 32 := current_of_drop hd'
    rw [hcur]
    dsimp only
    rw [if_pos rfl]
    dsimp only
    have hadv : s.advance = { s with idx := s.idx + 1 } := advance_of_drop hd'
    rw [hadv]
    have hd2 : ({ s with idx := s.idx + 1 } : Stream).input.drop
        ({ s with idx := s.idx + 1 } : Stream).idx =
        List.replicate k 32 ++ rest := by
      simpa using drop_succ_of_drop_cons hd'
    rw [skipLoop_spec k _ rest hd2 hstop]
    simp only [Option.isSome_some, decide_eq_true_eq]
    refine Prod.ext ?_ ?_ <;> simp
    omega

/-- Head byte of `rest` is not an identifier byte (or `rest` is empty). -/
def identStop (rest : List Nat) : Prop :=
  ∀ b, rest.head? = some b → is_ident b = false

theorem readIdentLoop_spec :
    ∀ (n : List Nat) (s : Stream) (rest : List Nat),
      s.input.drop s.idx = n ++ rest →
      (∀ b ∈ n, is_ident b = true) →
      identStop rest →
      readIdentLoop s = { s with idx := s.idx + n.length } := by
  intro n
  induction n with
  | nil =>
    intro s rest hd hall hstop
    simp only [List.nil_append] at hd
    have hcond : (match s.current with
                  | some c => is_ident c
                  | none => false) = false := by
      rw [current_eq_head_drop, hd]
      rcases hh : rest.head? with _ | b
      · rfl
      · exact hstop b hh
    rw [readIdentLoop_stop hcond]
    cases s
    simp
  | cons c n ih =>
    intro s rest hd hall hstop
    have hd' : s.input.drop s.idx = c :: (n ++ rest) := by simpa using hd
    have hcur : s.current = some c := current_of_drop hd'
    have hid : is_ident c = true := hall c (by simp)
    rw [readIdentLoop_advance hcur hid]
    have hadv : s.advance = { s with idx := s.idx + 1 } := advance_of_drop hd'
    rw [hadv]
    have hd2 : ({ s with idx := s.idx + 1 } : Stream).input.drop
        ({ s with idx := s.idx + 1 } : Stream).idx = n ++ rest := by
      simpa using drop_succ_of_drop_cons hd'
    rw [ih _ rest hd2 (fun b hb => hall b (by simp [hb])) hstop]
    simp
    omega

theorem read_identifier_spec {s : Stream} {n rest : List Nat}
    (hd : s.input.drop s.idx = n ++ rest)
    (hall : ∀ b ∈ n, is_ident b = true)
    (hstop : identStop rest) :
    read_identifier s = (n, { s with idx := s.idx + n.length }) := by
  unfold read_identifier
  rw [readIdentLoop_spec n s rest hd hall hstop]
  simp only [Stream.slice]
  refine Prod.ext ?_ rfl
  simp only
  rw [Nat.add_sub_cancel_left, hd]
  exact List.take_left n rest

theorem identStop_cons {c : Nat} {rest : List Nat} (h : is_ident c = false) :
    identStop (c :: rest) := by
  intro b hb
  obtain rfl : c = b := by simpa using hb
  exact h

theorem identStop_nil : identStop [] := by
  intro b hb
  simp at hb

theorem current_cpy_eq (s : Stream) : s.current_cpy = s.current := rfl

/-- `parse_attribute` on `n ]` yields `Attribute(n)`. -/
theorem pa_plain {s : Stream} {n rest : List Nat}
    (hd : s.input.drop s.idx = n ++ 93 :: rest)
    (hn : ∀ b ∈ n, is_ident b = true) :
    parse_attribute s =
      (some (.Attribute n), { s with idx := s.idx + n.length + 1 }) := by
  unfold parse_attribute
  rw [read_identifier_spec hd hn (identStop_cons (by decide))]
  dsimp only
  have hd1 : ({ s with idx := s.idx + n.length } : Stream).input.drop
      ({ s with idx := s.idx + n.length } : Stream).idx = 93 :: rest := by
    simpa using drop_shift hd
  rw [current_cpy_eq, current_of_drop hd1]
  dsimp only
  rw [if_pos rfl, advance_of_drop hd1]

/-- `parse_attribute` on `n = v ]` (unquoted value) yields
`AttributeValue(n, v)`. -/
theorem pa_eq_unquoted {s : Stream} {n v rest : List Nat}
    (hd : s.input.drop s.idx = n ++ 61 :: (v ++ 93 :: rest))
    (hn : ∀ b ∈ n, is_ident b = true)
    (hv : ∀ b ∈ v, is_ident b = true) :
    parse_attribute s =
      (some (.AttributeValue n v),
        { s with idx := s.idx + n.length + v.length + 2 }) := by
  unfold parse_attribute
  rw [read_identifier_spec hd hn (identStop_cons (by decide))]
  dsimp only
  have hd1 : ({ s with idx := s.idx + n.length } : Stream).input.drop
      ({ s with idx := s.idx + n.length } : Stream).idx =
      61 :: (v ++ 93 :: rest) := by
    simpa using drop_shift hd
  rw [current_cpy_eq, current_of_drop hd1]
  dsimp only
  rw [if_neg (by decide), if_pos rfl, advance_of_drop hd1]
  have hd2 : ({ s with idx := s.idx + n.length + 1 } : Stream).input.drop
      ({ s with idx := s.idx + n.length + 1 } : Stream).idx =
      v ++ 93 :: rest := by
    simpa [Nat.add_assoc] using drop_succ_of_drop_cons hd1
  -- the value does not open with a quote
  have hq : ({ s with idx := s.idx + n.length + 1 } : Stream).expect_oneof_and_skip
      [34, 39] = (none, { s with idx := s.idx + n.length + 1 }) := by
    unfold Stream.expect_oneof_and_skip
    rcases hvv : v with _ | ⟨b, v'⟩
    · rw [hvv] at hd2
      simp only [List.nil_append] at hd2
      rw [current_of_drop hd2]
      simp
    · rw [hvv] at hd2
      simp only [List.cons_append] at hd2
      rw [current_of_drop hd2]
      have hb : is_ident b = true := hv b (by rw [hvv]; simp)
      have h34 : b ≠ 34 := by intro hh; rw [hh] at hb; simp [is_ident, is_ascii_digit, is_ascii_uppercase, is_ascii_lowercase] at hb
      have h39 : b ≠ 39 := by intro hh; rw [hh] at hb; simp [is_ident, is_ascii_digit, is_ascii_uppercase, is_ascii_lowercase] at hb
      simp [h34, h39]
  rw [hq]
  dsimp only
  rw [read_identifier_spec hd2 hv (identStop_cons (by decide))]
  dsimp only
  have hd3 : ({ s with idx := s.idx + n.length + 1 + v.length } : Stream).input.drop
      ({ s with idx := s.idx + n.length + 1 + v.length } : Stream).idx =
      93 :: rest := by
    simpa [Nat.add_assoc] using drop_shift hd2
  have he : ({ s with idx := s.idx + n.length + 1 + v.length } : Stream).expect_and_skip
      93 = (some 93, { s with idx := s.idx + n.length + v.length + 2 }) := by
    unfold Stream.expect_and_skip
    rw [current_of_drop hd3]
    rw [advance_of_drop hd3]
    simp only [if_pos rfl]
    all_goals refine Prod.ext rfl ?_ <;> simp <;> omega
  rw [he]

/-- An identifier-only value (or an immediate `]`) never opens with a
quote byte. -/
theorem expect_oneof_quotes_none {s : Stream} {v rest : List Nat}
    (hd : s.input.drop s.idx = v ++ 93 :: rest)
    (hv : ∀ b ∈ v, is_ident b = true) :
    s.expect_oneof_and_skip [34, 39] = (none, s) := by
  unfold Stream.expect_oneof_and_skip
  rcases hvv : v with _ | ⟨b, v'⟩
  · rw [hvv] at hd
    simp only [List.nil_append] at hd
    rw [current_of_drop hd]
    simp
  · rw [hvv] at hd
    simp only [List.cons_append] at hd
    rw [current_of_drop hd]
    have hb : is_ident b = true := hv b (by rw [hvv]; simp)
    have h34 : b ≠ 34 := by intro hh; rw [hh] at hb; simp [is_ident, is_ascii_digit, is_ascii_uppercase, is_ascii_lowercase] at hb
    have h39 : b ≠ 39 := by intro hh; rw [hh] at hb; simp [is_ident, is_ascii_digit, is_ascii_uppercase, is_ascii_lowercase] at hb
    simp [h34, h39]

/-- `parse_attribute` on `n = q v q ]` with matching quotes `q` yields
`AttributeValue(n, v)`. -/
theorem pa_eq_quoted {s : Stream} {n v rest : List Nat} {q : Nat}
    (hq : q = 34 ∨ q = 39)
    (hd : s.input.drop s.idx = n ++ 61 :: q :: (v ++ q :: 93 :: rest))
    (hn : ∀ b ∈ n, is_ident b = true)
    (hv : ∀ b ∈ v, is_ident b = true) :
    parse_attribute s =
      (some (.AttributeValue n v),
        { s with idx := s.idx + n.length + v.length + 4 }) := by
  have hqid : is_ident q = false := by
    rcases hq with rfl | rfl <;> decide
  unfold parse_attribute
  rw [read_identifier_spec hd hn (identStop_cons (by decide))]
  dsimp only
  have hd1 : ({ s with idx := s.idx + n.length } : Stream).input.drop
      ({ s with idx := s.idx + n.length } : Stream).idx =
      61 :: q :: (v ++ q :: 93 :: rest) := by
    simpa using drop_shift hd
  rw [current_cpy_eq, current_of_drop hd1]
  dsimp only
  rw [if_neg (by decide), if_pos rfl, advance_of_drop hd1]
  have hd2 : ({ s with idx := s.idx + n.length + 1 } : Stream).input.drop
      ({ s with idx := s.idx + n.length + 1 } : Stream).idx =
      q :: (v ++ q :: 93 :: rest) := by
    simpa [Nat.add_assoc] using drop_succ_of_drop_cons hd1
  have hq1 : ({ s with idx := s.idx + n.length + 1 } : Stream).expect_oneof_and_skip
      [34, 39] = (some q, { s with idx := s.idx + n.length + 2 }) := by
    unfold Stream.expect_oneof_and_skip
    rw [current_of_drop hd2]
    dsimp only
    rw [if_pos (show q ∈ [34, 39] by rcases hq with rfl | rfl <;> simp),
      advance_of_drop hd2]
    all_goals refine Prod.ext rfl ?_ <;> simp <;> omega
  rw [hq1]
  dsimp only
  have hd3 : ({ s with idx := s.idx + n.length + 2 } : Stream).input.drop
      ({ s with idx := s.idx + n.length + 2 } : Stream).idx =
      v ++ q :: 93 :: rest := by
    have := drop_succ_of_drop_cons hd2
    simpa [Nat.add_assoc] using this
  rw [read_identifier_spec hd3 hv (identStop_cons hqid)]
  dsimp only
  have hd4 : ({ s with idx := s.idx + n.length + 2 + v.length } : Stream).input.drop
      ({ s with idx := s.idx + n.length + 2 + v.length } : Stream).idx =
      q :: 93 :: rest := by
    simpa [Nat.add_assoc] using drop_shift hd3
  have he1 : ({ s with idx := s.idx + n.length + 2 + v.length } : Stream).expect_and_skip
      q = (some q, { s with idx := s.idx + n.length + v.length + 3 }) := by
    unfold Stream.expect_and_skip
    rw [current_of_drop hd4]
    dsimp only
    rw [if_pos rfl, advance_of_drop hd4]
    all_goals refine Prod.ext rfl ?_ <;> simp <;> omega
  rw [he1]
  dsimp only
  have hd5 : ({ s with idx := s.idx + n.length + v.length + 3 } : Stream).input.drop
      ({ s with idx := s.idx + n.length + v.length + 3 } : Stream).idx =
      93 :: rest := by
    have := drop_succ_of_drop_cons hd4
    have harith : s.idx + n.length + 2 + v.length + 1 =
        s.idx + n.length + v.length + 3 := by omega
    rw [harith] at this
    simpa using this
  have he2 : ({ s with idx := s.idx + n.length + v.length + 3 } : Stream).expect_and_skip
      93 = (some 93, { s with idx := s.idx + n.length + v.length + 4 }) := by
    unfold Stream.expect_and_skip
    rw [current_of_drop hd5]
    dsimp only
    rw [if_pos rfl, advance_of_drop hd5]
    all_goals refine Prod.ext rfl ?_ <;> simp
  rw [he2]

/-- `parse_attribute` on `n = q v q2` with `q2 ≠ q` fails: the opening
quote must also close the value. -/
theorem pa_eq_mismatch {s : Stream} {n v rest : List Nat} {q q2 : Nat}
    (hq : q = 34 ∨ q = 39)
    (hne : q2 ≠ q) (hq2 : is_ident q2 = false)
    (hd : s.input.drop s.idx = n ++ 61 :: q :: (v ++ q2 :: rest))
    (hn : ∀ b ∈ n, is_ident b = true)
    (hv : ∀ b ∈ v, is_ident b = true) :
    parse_attribute s =
      (none, { s with idx := s.idx + n.length + v.length + 2 }) := by
  unfold parse_attribute
  rw [read_identifier_spec hd hn (identStop_cons (by decide))]
  dsimp only
  have hd1 : ({ s with idx := s.idx + n.length } : Stream).input.drop
      ({ s with idx := s.idx + n.length } : Stream).idx =
      61 :: q :: (v ++ q2 :: rest) := by
    simpa using drop_shift hd
  rw [current_cpy_eq, current_of_drop hd1]
  dsimp only
  rw [if_neg (by decide), if_pos rfl, advance_of_drop hd1]
  have hd2 : ({ s with idx := s.idx + n.length + 1 } : Stream).input.drop
      ({ s with idx := s.idx + n.length + 1 } : Stream).idx =
      q :: (v ++ q2 :: rest) := by
    simpa [Nat.add_assoc] using drop_succ_of_drop_cons hd1
  have hq1 : ({ s with idx := s.idx + n.length + 1 } : Stream).expect_oneof_and_skip
      [34, 39] = (some q, { s with idx := s.idx + n.length + 2 }) := by
    unfold Stream.expect_oneof_and_skip
    rw [current_of_drop hd2]
    dsimp only
    rw [if_pos (show q ∈ [34, 39] by rcases hq with rfl | rfl <;> simp),
      advance_of_drop hd2]
    all_goals refine Prod.ext rfl ?_ <;> simp <;> omega
  rw [hq1]
  dsimp only
  have hd3 : ({ s with idx := s.idx + n.length + 2 } : Stream).input.drop
      ({ s with idx := s.idx + n.length + 2 } : Stream).idx =
      v ++ q2 :: rest := by
    have := drop_succ_of_drop_cons hd2
    simpa [Nat.add_assoc] using this
  rw [read_identifier_spec hd3 hv (identStop_cons hq2)]
  dsimp only
  have hd4 : ({ s with idx := s.idx + n.length + 2 + v.length } : Stream).input.drop
      ({ s with idx := s.idx + n.length + 2 + v.length } : Stream).idx =
      q2 :: rest := by
    simpa [Nat.add_assoc] using drop_shift hd3
  have he1 : ({ s with idx := s.idx + n.length + 2 + v.length } : Stream).expect_and_skip
      q = (none, { s with idx := s.idx + n.length + v.length + 2 }) := by
    unfold Stream.expect_and_skip
    rw [current_of_drop hd4]
    dsimp only
    rw [if_neg hne]
    all_goals refine Prod.ext rfl ?_ <;> simp <;> omega
  rw [he1]

/-- `parse_attribute` on `n = q v q d …` with `d ≠ ]` fails: `]` must
directly follow the closing quote. -/
theorem pa_eq_noclose {s : Stream} {n v rest : List Nat} {q d : Nat}
    (hq : q = 34 ∨ q = 39)
    (hne : d ≠ 93)
    (hd : s.input.drop s.idx = n ++ 61 :: q :: (v ++ q :: d :: rest))
    (hn : ∀ b ∈ n, is_ident b = true)
    (hv : ∀ b ∈ v, is_ident b = true) :
    parse_attribute s =
      (none, { s with idx := s.idx + n.length + v.length + 3 }) := by
  have hqid : is_ident q = false := by
    rcases hq with rfl | rfl <;> decide
  unfold parse_attribute
  rw [read_identifier_spec hd hn (identStop_cons (by decide))]
  dsimp only
  have hd1 : ({ s with idx := s.idx + n.length } : Stream).input.drop
      ({ s with idx := s.idx + n.length } : Stream).idx =
      61 :: q :: (v ++ q :: d :: rest) := by
    simpa using drop_shift hd
  rw [current_cpy_eq, current_of_drop hd1]
  dsimp only
  rw [if_neg (by decide), if_pos rfl, advance_of_drop hd1]
  have hd2 : ({ s with idx := s.idx + n.length + 1 } : Stream).input.drop
      ({ s with idx := s.idx + n.length + 1 } : Stream).idx =
      q :: (v ++ q :: d :: rest) := by
    simpa [Nat.add_assoc] using drop_succ_of_drop_cons hd1
  have hq1 : ({ s with idx := s.idx + n.length + 1 } : Stream).expect_oneof_and_skip
      [34, 39] = (some q, { s with idx := s.idx + n.length + 2 }) := by
    unfold Stream.expect_oneof_and_skip
    rw [current_of_drop hd2]
    dsimp only
    rw [if_pos (show q ∈ [34, 39] by rcases hq with rfl | rfl <;> simp),
      advance_of_drop hd2]
    all_goals refine Prod.ext rfl ?_ <;> simp <;> omega
  rw [hq1]
  dsimp only
  have hd3 : ({ s with idx := s.idx + n.length + 2 } : Stream).input.drop
      ({ s with idx := s.idx + n.length + 2 } : Stream).idx =
      v ++ q :: d :: rest := by
    have := drop_succ_of_drop_cons hd2
    simpa [Nat.add_assoc] using this
  rw [read_identifier_spec hd3 hv (identStop_cons hqid)]
  dsimp only
  have hd4 : ({ s with idx := s.idx + n.length + 2 + v.length } : Stream).input.drop
      ({ s with idx := s.idx + n.length + 2 + v.length } : Stream).idx =
      q :: d :: rest := by
    simpa [Nat.add_assoc] using drop_shift hd3
  have he1 : ({ s with idx := s.idx + n.length + 2 + v.length } : Stream).expect_and_skip
      q = (some q, { s with idx := s.idx + n.length + v.length + 3 }) := by
    unfold Stream.expect_and_skip
    rw [current_of_drop hd4]
    dsimp only
    rw [if_pos rfl, advance_of_drop hd4]
    all_goals refine Prod.ext rfl ?_ <;> simp <;> omega
  rw [he1]
  dsimp only
  have hd5 : ({ s with idx := s.idx + n.length + v.length + 3 } : Stream).input.drop
      ({ s with idx := s.idx + n.length + v.length + 3 } : Stream).idx =
      d :: rest := by
    have := drop_succ_of_drop_cons hd4
    have harith : s.idx + n.length + 2 + v.length + 1 =
        s.idx + n.length + v.length + 3 := by omega
    rw [harith] at this
    simpa using this
  have he2 : ({ s with idx := s.idx + n.length + v.length + 3 } : Stream).expect_and_skip
      93 = (none, { s with idx := s.idx + n.length + v.length + 3 }) := by
    unfold Stream.expect_and_skip
    rw [current_of_drop hd5]
    dsimp only
    rw [if_neg hne]
  rw [he2]

/-- `parse_attribute` on `n c = v ]` with an operator byte
`c ∈ {~, ^, $, *}` yields the operator-specific node through
`attrOpDispatch`. -/
theorem pa_op {s : Stream} {n v rest : List Nat} {c : Nat}
    (hc : c = 126 ∨ c = 94 ∨ c = 36 ∨ c = 42)
    (hd : s.input.drop s.idx = n ++ c :: 61 :: (v ++ 93 :: rest))
    (hn : ∀ b ∈ n, is_ident b = true)
    (hv : ∀ b ∈ v, is_ident b = true) :
    parse_attribute s =
      ((match attrOpDispatch c with
        | .whitespaced => some (.AttributeValueWhitespacedContains n v)
        | .starts => some (.AttributeValueStartsWith n v)
        | .ends => some (.AttributeValueEndsWith n v)
        | .substr => some (.AttributeValueSubstring n v)
        | .unreach => none),
        { s with idx := s.idx + n.length + v.length + 3 }) := by
  have hcid : is_ident c = false := by
    rcases hc with rfl | rfl | rfl | rfl <;> decide
  unfold parse_attribute
  rw [read_identifier_spec hd hn (identStop_cons hcid)]
  dsimp only
  have hd1 : ({ s with idx := s.idx + n.length } : Stream).input.drop
      ({ s with idx := s.idx + n.length } : Stream).idx =
      c :: 61 :: (v ++ 93 :: rest) := by
    simpa using drop_shift hd
  rw [current_cpy_eq, current_of_drop hd1]
  dsimp only
  rw [if_neg (by rcases hc with rfl | rfl | rfl | rfl <;> decide),
    if_neg (by rcases hc with rfl | rfl | rfl | rfl <;> decide),
    if_pos hc, advance_of_drop hd1]
  have hd2 : ({ s with idx := s.idx + n.length + 1 } : Stream).input.drop
      ({ s with idx := s.idx + n.length + 1 } : Stream).idx =
      61 :: (v ++ 93 :: rest) := by
    simpa [Nat.add_assoc] using drop_succ_of_drop_cons hd1
  have he0 : ({ s with idx := s.idx + n.length + 1 } : Stream).expect_and_skip
      61 = (some 61, { s with idx := s.idx + n.length + 2 }) := by
    unfold Stream.expect_and_skip
    rw [current_of_drop hd2]
    dsimp only
    rw [if_pos rfl, advance_of_drop hd2]
    all_goals refine Prod.ext rfl ?_ <;> simp <;> omega
  rw [he0]
  dsimp only
  have hd3 : ({ s with idx := s.idx + n.length + 2 } : Stream).input.drop
      ({ s with idx := s.idx + n.length + 2 } : Stream).idx =
      v ++ 93 :: rest := by
    have := drop_succ_of_drop_cons hd2
    simpa [Nat.add_assoc] using this
  rw [expect_oneof_quotes_none hd3 hv]
  dsimp only
  rw [read_identifier_spec hd3 hv (identStop_cons (by decide))]
  dsimp only
  have hd4 : ({ s with idx := s.idx + n.length + 2 + v.length } : Stream).input.drop
      ({ s with idx := s.idx + n.length + 2 + v.length } : Stream).idx =
      93 :: rest := by
    simpa [Nat.add_assoc] using drop_shift hd3
  have he2 : ({ s with idx := s.idx + n.length + 2 + v.length } : Stream).expect_and_skip
      93 = (some 93, { s with idx := s.idx + n.length + v.length + 3 }) := by
    unfold Stream.expect_and_skip
    rw [current_of_drop hd4]
    dsimp only
    rw [if_pos rfl, advance_of_drop hd4]
    all_goals refine Prod.ext rfl ?_ <;> simp <;> omega
  rw [he2]
  dsimp only
  rcases attrOpDispatch c with _ | _ | _ | _ | _ <;> rfl

/-! ### Evaluation lemmas for simple selectors and compound selectors -/

theorem ss_eof {s : Stream} (h : s.current = none) :
    simpleStep s = (none, s) := by
  unfold simpleStep
  rw [current_cpy_eq, h]

theorem ss_stopbyte {s : Stream} {b : Nat} (h : s.current = some b)
    (h35 : b ≠ 35) (h46 : b ≠ 46) (h42 : b ≠ 42) (h91 : b ≠ 91)
    (hid : is_ident b = false) : simpleStep s = (none, s) := by
  unfold simpleStep
  rw [current_cpy_eq, h]
  dsimp only
  rw [if_neg h35, if_neg h46, if_neg h42, if_neg h91, if_neg (by simp [hid])]

theorem ss_hash {s : Stream} {n rest : List Nat}
    (hd : s.input.drop s.idx = 35 :: (n ++ rest))
    (hn : ∀ b ∈ n, is_ident b = true) (hstop : identStop rest) :
    simpleStep s = (some (.Id n), { s with idx := s.idx + 1 + n.length }) := by
  unfold simpleStep
  rw [current_cpy_eq, current_of_drop hd]
  dsimp only
  rw [if_pos rfl, advance_of_drop hd]
  have hd1 : ({ s with idx := s.idx + 1 } : Stream).input.drop
      ({ s with idx := s.idx + 1 } : Stream).idx = n ++ rest := by
    simpa using drop_succ_of_drop_cons hd
  rw [read_identifier_spec hd1 hn hstop]

theorem ss_dot {s : Stream} {n rest : List Nat}
    (hd : s.input.drop s.idx = 46 :: (n ++ rest))
    (hn : ∀ b ∈ n, is_ident b = true) (hstop : identStop rest) :
    simpleStep s = (some (.Class n), { s with idx := s.idx + 1 + n.length }) := by
  unfold simpleStep
  rw [current_cpy_eq, current_of_drop hd]
  dsimp only
  rw [if_neg (by decide), if_pos rfl, advance_of_drop hd]
  have hd1 : ({ s with idx := s.idx + 1 } : Stream).input.drop
      ({ s with idx := s.idx + 1 } : Stream).idx = n ++ rest := by
    simpa using drop_succ_of_drop_cons hd
  rw [read_identifier_spec hd1 hn hstop]

theorem ss_star {s : Stream} {rest : List Nat}
    (hd : s.input.drop s.idx = 42 :: rest) :
    simpleStep s = (some .All, { s with idx := s.idx + 1 }) := by
  unfold simpleStep
  rw [current_cpy_eq, current_of_drop hd]
  dsimp only
  rw [if_neg (by decide), if_neg (by decide), if_pos rfl, advance_of_drop hd]

theorem ss_bracket {s : Stream} {rest : List Nat}
    (hd : s.input.drop s.idx = 91 :: rest) :
    simpleStep s = parse_attribute { s with idx := s.idx + 1 } := by
  unfold simpleStep
  rw [current_cpy_eq, current_of_drop hd]
  dsimp only
  rw [if_neg (by decide), if_neg (by decide), if_neg (by decide), if_pos rfl,
    advance_of_drop hd]

theorem ss_tag {s : Stream} {n rest : List Nat}
    (hd : s.input.drop s.idx = n ++ rest) (hne : n ≠ [])
    (hn : ∀ b ∈ n, is_ident b = true) (hstop : identStop rest) :
    simpleStep s = (some (.Tag n), { s with idx := s.idx + n.length }) := by
  rcases n with _ | ⟨c, n'⟩
  · exact absurd rfl hne
  · have hd' : s.input.drop s.idx = c :: (n' ++ rest) := by simpa using hd
    have hc : is_ident c = true := hn c (by simp)
    unfold simpleStep
    rw [current_cpy_eq, current_of_drop hd']
    dsimp only
    rw [if_neg (by intro hh; rw [hh] at hc; simp [is_ident, is_ascii_digit, is_ascii_uppercase, is_ascii_lowercase] at hc),
      if_neg (by intro hh; rw [hh] at hc; simp [is_ident, is_ascii_digit, is_ascii_uppercase, is_ascii_lowercase] at hc),
      if_neg (by intro hh; rw [hh] at hc; simp [is_ident, is_ascii_digit, is_ascii_uppercase, is_ascii_lowercase] at hc),
      if_neg (by intro hh; rw [hh] at hc; simp [is_ident, is_ascii_digit, is_ascii_uppercase, is_ascii_lowercase] at hc),
      if_pos hc]
    rw [read_identifier_spec hd hn hstop]

theorem compound_of_single {s : Stream} {b : Bool} {s1 t : Stream}
    {r : Selector}
    (hsw : skip_whitespaces s = (b, s1))
    (hss : simpleStep s1 = (some r, t))
    (hstop : simpleStep t = (none, t)) :
    parse_compound_selector s = (some r, t) := by
  unfold parse_compound_selector
  rw [hsw]
  dsimp only
  rw [compoundLoop_some hss]
  dsimp only
  rw [compoundLoop_none hstop]

theorem compound_none_of_stop {s : Stream} {b : Bool} {s1 t : Stream}
    (hsw : skip_whitespaces s = (b, s1))
    (hss : simpleStep s1 = (none, t)) :
    parse_compound_selector s = (none, t) := by
  unfold parse_compound_selector
  rw [hsw]
  dsimp only
  rw [compoundLoop_none hss]

theorem skip_whitespaces_nospace {s : Stream} (h : s.current ≠ some 32) :
    skip_whitespaces s = (false, s) := by
  unfold skip_whitespaces Stream.expect_and_skip_cond Stream.expect_and_skip
  rcases hc : s.current with _ | c
  · dsimp only
    rw [skipLoop_stop h]
    rfl
  · have hcne : c ≠ 32 := by
      intro hh
      rw [hh] at hc
      exact h hc
    dsimp only
    rw [if_neg hcne]
    dsimp only
    rw [skipLoop_stop h]
    rfl

/-! ### Evaluation lemmas for the complex-selector and selector layers -/

theorem drop_nil_of_current_none {s : Stream} (h : s.current = none) :
    s.input.drop s.idx = [] := by
  have := current_eq_head_drop s
  rw [h] at this
  rcases hd : s.input.drop s.idx with _ | ⟨c, t⟩
  · rfl
  · rw [hd] at this
    simp at this

theorem complex_none {f : Nat} {nested : Bool} {s t : Stream}
    (hcp : parse_compound_selector s = (none, t)) (hf : 1 ≤ f) :
    parse_complex_selector f nested s = some (none, t) := by
  obtain ⟨f1, rfl⟩ : ∃ f1, f = f1 + 1 := ⟨f - 1, by omega⟩
  simp only [parse_complex_selector]
  rw [hcp]

theorem eof_complex {f : Nat} {nested : Bool} {s : Stream}
    (h : s.current = none) (hf : 1 ≤ f) :
    parse_complex_selector f nested s = some (none, s) := by
  have hsw : skip_whitespaces s = (false, s) :=
    skip_whitespaces_nospace (by rw [h]; simp)
  exact complex_none (compound_none_of_stop hsw (ss_eof h)) hf

theorem complex_nested_of {f : Nat} {s t t2 : Stream} {r : Selector}
    {hw : Bool}
    (hcp : parse_compound_selector s = (some r, t))
    (hsw : skip_whitespaces t = (hw, t2)) (hf : 1 ≤ f) :
    parse_complex_selector f true s = some (some r, t2) := by
  obtain ⟨f1, rfl⟩ : ∃ f1, f = f1 + 1 := ⟨f - 1, by omega⟩
  simp only [parse_complex_selector]
  rw [hcp]
  dsimp only
  rw [hsw]
  simp

theorem complexLoop_eof {f : Nat} {l : Selector} {hw : Bool} {s : Stream}
    (h : s.current = none) (hf : 1 ≤ f) :
    complexLoop f l hw s = some (some l, s) := by
  obtain ⟨f1, rfl⟩ : ∃ f1, f = f1 + 1 := ⟨f - 1, by omega⟩
  simp only [complexLoop]
  rw [current_cpy_eq, h]

theorem complexLoop_comma {f : Nat} {l : Selector} {hw : Bool} {s : Stream}
    (h : s.current = some 44) (hf : 1 ≤ f) :
    complexLoop f l hw s = some (some l, s.advance) := by
  obtain ⟨f1, rfl⟩ : ∃ f1, f = f1 + 1 := ⟨f - 1, by omega⟩
  simp only [complexLoop]
  rw [current_cpy_eq, h]
  dsimp only
  have hdis : complexDispatch 44 hw = .comma := by simp [complexDispatch]
  rw [hdis]

theorem complexLoop_descend_step {f : Nat} {l : Selector} {hw : Bool}
    {s t : Stream} {c : Nat} {r : Selector}
    (hc : s.current = some c) (hdis : complexDispatch c hw = .descend)
    (hpc : parse_complex_selector f true s = some (some r, t)) :
    complexLoop (f + 1) l hw s = complexLoop f (.Descendant l r) hw t := by
  simp only [complexLoop]
  rw [current_cpy_eq, hc]
  dsimp only
  rw [hdis]
  dsimp only
  rw [hpc]

theorem complex_single_eof {f : Nat} {s t : Stream} {r : Selector}
    (hcp : parse_compound_selector s = (some r, t))
    (heof : t.current = none) (hf : 2 ≤ f) :
    parse_complex_selector f false s = some (some r, t) := by
  obtain ⟨f1, rfl⟩ : ∃ f1, f = f1 + 1 := ⟨f - 1, by omega⟩
  simp only [parse_complex_selector]
  rw [hcp]
  dsimp only
  rw [skip_whitespaces_nospace (by rw [heof]; simp)]
  dsimp only
  exact complexLoop_eof heof (by omega)

theorem complex_to_comma {f : Nat} {s t : Stream} {r : Selector}
    (hcp : parse_compound_selector s = (some r, t))
    (hcm : t.current = some 44) (hf : 2 ≤ f) :
    parse_complex_selector f false s = some (some r, t.advance) := by
  obtain ⟨f1, rfl⟩ : ∃ f1, f = f1 + 1 := ⟨f - 1, by omega⟩
  simp only [parse_complex_selector]
  rw [hcp]
  dsimp only
  rw [skip_whitespaces_nospace (by rw [hcm]; simp)]
  dsimp only
  exact complexLoop_comma hcm (by omega)

theorem selector_step {f : Nat} {s t : Stream} {r : Selector}
    (hpc : parse_complex_selector f false s = some (some r, t)) :
    selector (f + 1) s = selectorLoop f r t := by
  simp only [selector]
  rw [hpc]

theorem selector_none_start {f : Nat} {s t : Stream}
    (hpc : parse_complex_selector f false s = some (none, t)) :
    selector (f + 1) s = some (none, t) := by
  simp only [selector]
  rw [hpc]

theorem selectorLoop_step {f : Nat} {l : Selector} {s t : Stream}
    {r : Selector}
    (hpc : parse_complex_selector f false s = some (some r, t)) :
    selectorLoop (f + 1) l s = selectorLoop f (.Or l r) t := by
  simp only [selectorLoop]
  rw [hpc]

theorem selectorLoop_stop {f : Nat} {l : Selector} {s t : Stream}
    (hpc : parse_complex_selector f false s = some (none, t)) :
    selectorLoop (f + 1) l s = some (some l, t) := by
  simp only [selectorLoop]
  rw [hpc]

theorem selectorLoop_eof {f : Nat} {l : Selector} {s : Stream}
    (heof : s.current = none) (hf : 2 ≤ f) :
    selectorLoop f l s = some (some l, s) := by
  obtain ⟨f1, rfl⟩ : ∃ f1, f = f1 + 1 := ⟨f - 1, by omega⟩
  exact selectorLoop_stop (eof_complex heof (by omega))

/-- A single complex selector covering the whole input. -/
theorem selector_of_single {f : Nat} {s t : Stream} {r : Selector}
    (hcp : parse_compound_selector s = (some r, t))
    (heof : t.current = none) (hf : 3 ≤ f) :
    selector f s = some (some r, t) := by
  obtain ⟨f1, rfl⟩ : ∃ f1, f = f1 + 1 := ⟨f - 1, by omega⟩
  rw [selector_step (complex_single_eof hcp heof (by omega))]
  exact selectorLoop_eof heof (by omega)

/-- `rest` opens with a byte that no simple selector can consume. -/
def compoundStop (rest : List Nat) : Prop :=
  ∀ b, rest.head? = some b →
    b ≠ 35 ∧ b ≠ 46 ∧ b ≠ 42 ∧ b ≠ 91 ∧ is_ident b = false

theorem simpleStep_of_compoundStop {s : Stream} {rest : List Nat}
    (hd : s.input.drop s.idx = rest) (hstop : compoundStop rest) :
    simpleStep s = (none, s) := by
  rcases hrest : rest with _ | ⟨b, rest'⟩
  · exact ss_eof (current_of_drop_nil (by rw [hd, hrest]))
  · obtain ⟨h35, h46, h42, h91, hid⟩ := hstop b (by rw [hrest]; rfl)
    exact ss_stopbyte (current_of_drop (by rw [hd, hrest])) h35 h46 h42 h91 hid

/-- A compound selector that is one bare tag identifier followed by a
stopping byte. -/
theorem compound_tag {s : Stream} {a rest : List Nat}
    (hd : s.input.drop s.idx = a ++ rest) (hne : a ≠ [])
    (ha : ∀ b ∈ a, is_ident b = true) (hstop : compoundStop rest) :
    parse_compound_selector s =
      (some (.Tag a), { s with idx := s.idx + a.length }) := by
  rcases a with _ | ⟨c, a'⟩
  · exact absurd rfl hne
  · have hd' : s.input.drop s.idx = c :: (a' ++ rest) := by simpa using hd
    have hcur : s.current = some c := current_of_drop hd'
    have hcid : is_ident c = true := ha c (by simp)
    have hc32 : c ≠ 32 := by
      intro hcc
      rw [hcc] at hcid
      simp [is_ident, is_ascii_digit, is_ascii_uppercase, is_ascii_lowercase] at hcid
    have hsw : skip_whitespaces s = (false, s) :=
      skip_whitespaces_nospace (by rw [hcur]; simpa using hc32)
    have hss : simpleStep s =
        (some (.Tag (c :: a')),
          { s with idx := s.idx + (c :: a').length }) :=
      ss_tag hd (by simp) ha (fun b hb => (hstop b hb).2.2.2.2)
    have hdrest : ({ s with idx := s.idx + (c :: a').length } : Stream).input.drop
        ({ s with idx := s.idx + (c :: a').length } : Stream).idx = rest := by
      simpa using drop_shift hd
    exact compound_of_single hsw hss (simpleStep_of_compoundStop hdrest hstop)

/-- A compound selector that is `k` leading spaces, one bare tag
identifier, then a stopping byte. -/
theorem compound_tag_spaces {s : Stream} {k : Nat} {a rest : List Nat}
    (hd : s.input.drop s.idx = List.replicate k 32 ++ (a ++ rest))
    (hne : a ≠ []) (ha : ∀ x ∈ a, is_ident x = true)
    (hstop : compoundStop rest) :
    parse_compound_selector s =
      (some (.Tag a), { s with idx := s.idx + k + a.length }) := by
  rcases a with _ | ⟨c, a'⟩
  · exact absurd rfl hne
  · have hcid : is_ident c = true := ha c (by simp)
    have hc32 : c ≠ 32 := by
      intro hh; rw [hh] at hcid; simp [is_ident, is_ascii_digit, is_ascii_uppercase, is_ascii_lowercase] at hcid
    have hsw : skip_whitespaces s =
        (decide (0 < k), { s with idx := s.idx + k }) :=
      skip_whitespaces_spec hd (by intro hh; exact hc32 (by simpa using hh))
    have hd1 : ({ s with idx := s.idx + k } : Stream).input.drop
        ({ s with idx := s.idx + k } : Stream).idx = (c :: a') ++ rest := by
      simpa using drop_shift hd
    have hss : simpleStep { s with idx := s.idx + k } =
        (some (.Tag (c :: a')),
          { s with idx := s.idx + k + (c :: a').length }) :=
      ss_tag hd1 (by simp) ha (fun x hx => (hstop x hx).2.2.2.2)
    have hd2 : ({ s with idx := s.idx + k + (c :: a').length } : Stream).input.drop
        ({ s with idx := s.idx + k + (c :: a').length } : Stream).idx = rest := by
      simpa using drop_shift hd1
    exact compound_of_single hsw hss (simpleStep_of_compoundStop hd2 hstop)

theorem compoundStop_44 {X : List Nat} : compoundStop (44 :: X) := by
  intro x hx
  obtain rfl : (44 : Nat) = x := by simpa using hx
  exact ⟨by decide, by decide, by decide, by decide, by decide⟩

theorem compoundStop_nil : compoundStop [] := by
  intro x hx
  simp at hx

/-- A compound selector that is a single attribute selector followed by
end-of-input. -/
theorem compound_attr_eof {s t : Stream} {r : Selector} {body : List Nat}
    (hd : s.input.drop s.idx = 91 :: body)
    (hpa : parse_attribute { s with idx := s.idx + 1 } = (some r, t))
    (heof : t.current = none) :
    parse_compound_selector s = (some r, t) := by
  have hsw : skip_whitespaces s = (false, s) :=
    skip_whitespaces_nospace (by rw [current_of_drop hd]; simp)
  have hss : simpleStep s = (some r, t) := by
    rw [ss_bracket hd]
    exact hpa
  exact compound_of_single hsw hss (ss_eof heof)

/-- Modelled from the spec: the `query_selector` facade (§6) yields an
iterator only when the selector string parses into an expression; here it
is surfaced as the parsed expression itself (the matcher is out of scope). -/
def query_selector (input : List Nat) : Option Selector :=
  match run_selector input with
  | some (some e, _) => some e
  | _ => none

/-! ### The claims -/

/-- C1: the selector parser terminates for every byte input, returning a
result (`some` or `none` selector) within the linear fuel bound
`selectorBound`, with the final index inside the input; every loop either
advances the stream or exits (this is what the fuel-sufficiency proof
establishes). -/
theorem selector_terminates_for_every_input (input : List Nat) :
    ∃ (r : Option Selector) (s' : Stream),
      run_selector input = some (r, s') ∧ s'.input = input ∧
        s'.idx ≤ input.length :=
  run_selector_total input

/-- C2 counterexample: a partial parse is not returned when the failure is
inside the first complex selector: `a>` (input ending after a combinator)
and `a%` (next byte outside the grammar) both return no selector even
though the prefix `a` is a complete compound selector. -/
theorem counterexample_partial_parse_discarded :
    run_selector (bytes "a>") = some (none, { input := bytes "a>", idx := 2 }) ∧
    run_selector (bytes "a%") = some (none, { input := bytes "a%", idx := 1 }) := by
  constructor
  · decide
  · decide

/-- C2 amended: what was built is kept only across top-level commas: when a
complex selector has been finished by a comma and the rest of the input
fails to parse (here `>`), `selector` returns the expression built from the
parsed prefix. -/
theorem partial_parse_kept_across_comma (a : List Nat) (hne : a ≠ [])
    (ha : ∀ b ∈ a, is_ident b = true) :
    run_selector (a ++ [44, 62]) =
      some (some (.Tag a), { input := a ++ [44, 62], idx := a.length + 1 }) := by
  have hd0 : (⟨a ++ [44, 62], 0⟩ : Stream).input.drop
      (⟨a ++ [44, 62], 0⟩ : Stream).idx = a ++ (44 :: [62]) := by simp
  have hstop : compoundStop (44 :: [62]) := by
    intro b hb
    obtain rfl : (44 : Nat) = b := by simpa using hb
    exact ⟨by decide, by decide, by decide, by decide, by decide⟩
  have hcomp : parse_compound_selector ⟨a ++ [44, 62], 0⟩ =
      (some (.Tag a), ⟨a ++ [44, 62], a.length⟩) := by
    simpa using compound_tag hd0 hne ha hstop
  have hd1 : (a ++ [44, 62]).drop a.length = 44 :: [62] := by
    simpa using drop_shift hd0
  have hc44 : (⟨a ++ [44, 62], a.length⟩ : Stream).current = some 44 :=
    current_of_drop hd1
  have hadv : (⟨a ++ [44, 62], a.length⟩ : Stream).advance =
      ⟨a ++ [44, 62], a.length + 1⟩ := by
    simpa using advance_of_drop hd1
  have hd2 : (a ++ [44, 62]).drop (a.length + 1) = [62] :=
    drop_succ_of_drop_cons hd1
  have hc62 : (⟨a ++ [44, 62], a.length + 1⟩ : Stream).current = some 62 :=
    current_of_drop hd2
  have hcompu : parse_compound_selector ⟨a ++ [44, 62], a.length + 1⟩ =
      (none, ⟨a ++ [44, 62], a.length + 1⟩) :=
    compound_none_of_stop
      (skip_whitespaces_nospace (by rw [hc62]; simp))
      (ss_stopbyte hc62 (by decide) (by decide) (by decide) (by decide)
        (by decide))
  obtain ⟨g, hg⟩ : ∃ g, selectorBound (a ++ [44, 62]) = g + 2 :=
    ⟨selectorBound (a ++ [44, 62]) - 2, by unfold selectorBound; omega⟩
  have hgge : 1 ≤ g := by
    unfold selectorBound at hg
    omega
  unfold run_selector
  rw [hg, show g + 2 = (g + 1) + 1 from rfl,
    selector_step (complex_to_comma hcomp hc44 (by omega)), hadv,
    selectorLoop_stop (complex_none hcompu (by omega))]

/-- C2 amended witness: for `a,>` the prefix `a` survives. -/
theorem partial_parse_kept_across_comma_at_a :
    run_selector ([97] ++ [44, 62]) =
      some (some (.Tag [97]),
        { input := [97] ++ [44, 62], idx := [97].length + 1 }) :=
  partial_parse_kept_across_comma [97] (by decide) (by decide)

/-- C4: an input whose first non-space byte is none of `#` `.` `*` `[` and
not an identifier byte parses to no selector, stopping at that byte; and
the `query_selector` facade yields none exactly when the parse produced no
selector. -/
theorem fully_unrecognized_input_yields_none :
    (∀ (k b : Nat) (rest : List Nat),
        b ≠ 32 → b ≠ 35 → b ≠ 46 → b ≠ 42 → b ≠ 91 → is_ident b = false →
        run_selector (List.replicate k 32 ++ b :: rest) =
          some (none,
            { input := List.replicate k 32 ++ b :: rest, idx := k })) ∧
    (∀ input : List Nat,
        query_selector input = none ↔
          ∃ s', run_selector input = some (none, s')) := by
  constructor
  · intro k b rest hb32 h35 h46 h42 h91 hid
    have hd0 : (⟨List.replicate k 32 ++ b :: rest, 0⟩ : Stream).input.drop
        (⟨List.replicate k 32 ++ b :: rest, 0⟩ : Stream).idx =
        List.replicate k 32 ++ b :: rest := by simp
    have hsw : skip_whitespaces ⟨List.replicate k 32 ++ b :: rest, 0⟩ =
        (decide (0 < k), ⟨List.replicate k 32 ++ b :: rest, k⟩) := by
      simpa using skip_whitespaces_spec hd0
        (by intro hh; exact hb32 (by simpa using hh))
    have hd1 : (List.replicate k 32 ++ b :: rest).drop k = b :: rest := by
      simpa using drop_shift hd0
    have hcompu : parse_compound_selector ⟨List.replicate k 32 ++ b :: rest, 0⟩ =
        (none, ⟨List.replicate k 32 ++ b :: rest, k⟩) :=
      compound_none_of_stop hsw
        (ss_stopbyte (current_of_drop hd1) h35 h46 h42 h91 hid)
    obtain ⟨f, hf⟩ : ∃ f, selectorBound (List.replicate k 32 ++ b :: rest) =
        f + 1 :=
      ⟨selectorBound (List.replicate k 32 ++ b :: rest) - 1, by
        unfold selectorBound; omega⟩
    have hfge : 1 ≤ f := by
      unfold selectorBound at hf
      omega
    unfold run_selector
    rw [hf, selector_none_start (complex_none hcompu (by omega))]
  · intro input
    obtain ⟨r, s', hrun, -, -⟩ := run_selector_total input
    unfold query_selector
    rw [hrun]
    rcases r with _ | e
    · simp
    · simp

/-- C4 witness: the concrete input `␣␣!x` (two spaces then `!`) yields no
selector and the facade agrees. -/
theorem fully_unrecognized_witness :
    run_selector (List.replicate 2 32 ++ 33 :: [120]) =
      some (none, { input := List.replicate 2 32 ++ 33 :: [120], idx := 2 }) ∧
    (query_selector [33] = none ↔
      ∃ s', run_selector [33] = some (none, s')) :=
  ⟨fully_unrecognized_input_yields_none.1 2 33 [120] (by decide) (by decide)
      (by decide) (by decide) (by decide) (by decide),
    fully_unrecognized_input_yields_none.2 [33]⟩

/-- C3 counterexample: for `a>b c` the parser joins the compound `c` with
`And`, not `Descendant`: the `has_whitespaces` flag was captured as `false`
before the loop and is never refreshed. -/
theorem counterexample_gt_then_space_gives_and :
    run_selector (bytes "a>b c") =
      some (some (.And (.Parent (.Tag (bytes "a")) (.Tag (bytes "b")))
          (.Tag (bytes "c"))),
        { input := bytes "a>b c", idx := 5 }) ∧
    run_selector (bytes "a>b c") ≠
      some (some (.Descendant (.Parent (.Tag (bytes "a")) (.Tag (bytes "b")))
          (.Tag (bytes "c"))),
        { input := bytes "a>b c", idx := 5 }) := by
  constructor
  · decide
  · decide

/-- C3 amended: whitespace between two compound selectors acts as the
descendant combinator when the whitespace flag captured after the first
compound of the complex selector is set (the flag is computed once per
complex selector and never refreshed): for identifiers `a`, `b`, the input
`a␣b` parses to `Descendant(Tag a, Tag b)`. -/
theorem whitespace_is_descendant_combinator (a b : List Nat)
    (hnea : a ≠ []) (hneb : b ≠ [])
    (ha : ∀ x ∈ a, is_ident x = true) (hb : ∀ x ∈ b, is_ident x = true) :
    run_selector (a ++ 32 :: b) =
      some (some (.Descendant (.Tag a) (.Tag b)),
        { input := a ++ 32 :: b, idx := a.length + 1 + b.length }) := by
  rcases b with _ | ⟨c, b'⟩
  · exact absurd rfl hneb
  · have hcid : is_ident c = true := hb c (by simp)
    have hc32 : c ≠ 32 := by
      intro hh; rw [hh] at hcid; simp [is_ident, is_ascii_digit, is_ascii_uppercase, is_ascii_lowercase] at hcid
    have hd0 : (⟨a ++ 32 :: c :: b', 0⟩ : Stream).input.drop
        (⟨a ++ 32 :: c :: b', 0⟩ : Stream).idx = a ++ (32 :: c :: b') := by
      simp
    have hstop0 : compoundStop (32 :: c :: b') := by
      intro x hx
      obtain rfl : (32 : Nat) = x := by simpa using hx
      exact ⟨by decide, by decide, by decide, by decide, by decide⟩
    have hcomp : parse_compound_selector ⟨a ++ 32 :: c :: b', 0⟩ =
        (some (.Tag a), ⟨a ++ 32 :: c :: b', a.length⟩) := by
      simpa using compound_tag hd0 hnea ha hstop0
    have hd1 : (a ++ 32 :: c :: b').drop a.length = 32 :: c :: b' := by
      simpa using drop_shift hd0
    have hsw1 : skip_whitespaces ⟨a ++ 32 :: c :: b', a.length⟩ =
        (true, ⟨a ++ 32 :: c :: b', a.length + 1⟩) := by
      have hrep : (⟨a ++ 32 :: c :: b', a.length⟩ : Stream).input.drop
          (⟨a ++ 32 :: c :: b', a.length⟩ : Stream).idx =
          List.replicate 1 32 ++ (c :: b') := by simpa using hd1
      have := skip_whitespaces_spec hrep
        (by intro hh; exact hc32 (by simpa using hh))
      simpa using this
    have hd2 : (a ++ 32 :: c :: b').drop (a.length + 1) = c :: b' :=
      drop_succ_of_drop_cons hd1
    have hcu2 : (⟨a ++ 32 :: c :: b', a.length + 1⟩ : Stream).current =
        some c := current_of_drop hd2
    have hd2full : (⟨a ++ 32 :: c :: b', a.length + 1⟩ : Stream).input.drop
        (⟨a ++ 32 :: c :: b', a.length + 1⟩ : Stream).idx =
        (c :: b') ++ [] := by simpa using hd2
    have hcomp2 : parse_compound_selector ⟨a ++ 32 :: c :: b', a.length + 1⟩ =
        (some (.Tag (c :: b')),
          ⟨a ++ 32 :: c :: b', a.length + 1 + (c :: b').length⟩) := by
      simpa using compound_tag hd2full (by simp) hb (by intro x hx; simp at hx)
    have hdeof : (a ++ 32 :: c :: b').drop (a.length + 1 + (c :: b').length) =
        [] := by
      simpa using drop_shift hd2full
    have heof : (⟨a ++ 32 :: c :: b',
        a.length + 1 + (c :: b').length⟩ : Stream).current = none :=
      current_of_drop_nil hdeof
    have hdis : complexDispatch c true = .descend := by
      have hc44 : c ≠ 44 := by
        intro hh; rw [hh] at hcid; simp [is_ident, is_ascii_digit, is_ascii_uppercase, is_ascii_lowercase] at hcid
      have hc62 : c ≠ 62 := by
        intro hh; rw [hh] at hcid; simp [is_ident, is_ascii_digit, is_ascii_uppercase, is_ascii_lowercase] at hcid
      simp [complexDispatch, hc44, hc62]
    obtain ⟨f1, hB⟩ : ∃ f1, selectorBound (a ++ 32 :: c :: b') = f1 + 3 :=
      ⟨selectorBound (a ++ 32 :: c :: b') - 3, by unfold selectorBound; omega⟩
    have hf1 : 1 ≤ f1 := by
      unfold selectorBound at hB
      omega
    have hnested : parse_complex_selector f1 true
        ⟨a ++ 32 :: c :: b', a.length + 1⟩ =
        some (some (.Tag (c :: b')),
          ⟨a ++ 32 :: c :: b', a.length + 1 + (c :: b').length⟩) :=
      complex_nested_of hcomp2
        (skip_whitespaces_nospace (by rw [heof]; simp)) (by omega)
    have hcpx : parse_complex_selector (f1 + 2) false ⟨a ++ 32 :: c :: b', 0⟩ =
        some (some (.Descendant (.Tag a) (.Tag (c :: b'))),
          ⟨a ++ 32 :: c :: b', a.length + 1 + (c :: b').length⟩) := by
      simp only [parse_complex_selector]
      rw [hcomp]
      dsimp only
      rw [hsw1]
      simp only [Bool.false_eq_true, if_false]
      rw [complexLoop_descend_step hcu2 hdis hnested]
      exact complexLoop_eof heof (by omega)
    unfold run_selector
    rw [hB, show f1 + 3 = (f1 + 2) + 1 from rfl, selector_step hcpx]
    exact selectorLoop_eof heof (by omega)

/-- C3 amended witness: `a b` parses to `Descendant(Tag a, Tag b)`. -/
theorem whitespace_is_descendant_combinator_at_ab :
    run_selector ([97] ++ 32 :: [98]) =
      some (some (.Descendant (.Tag [97]) (.Tag [98])),
        { input := [97] ++ 32 :: [98], idx := [97].length + 1 + [98].length }) :=
  whitespace_is_descendant_combinator [97] [98] (by decide) (by decide)
    (by decide) (by decide)

/-- C5: `is_ident` accepts exactly the ASCII digits, the ASCII letters, and
the five bytes `-` `_` `:` `+` `/`. -/
theorem is_ident_characterization :
    ∀ c : Nat, c < 256 →
      (is_ident c = true ↔
        ((Char.ofNat c).isDigit = true ∨ (Char.ofNat c).isUpper = true ∨
         (Char.ofNat c).isLower = true ∨
         Char.ofNat c ∈ (['-', '_', ':', '+', '/'] : List Char))) := by
  set_option maxRecDepth 2048 in decide

/-- C5 witness: the characterization at the concrete byte `a` = 97. -/
theorem is_ident_characterization_at_97 :
    is_ident 97 = true ↔
      ((Char.ofNat 97).isDigit = true ∨ (Char.ofNat 97).isUpper = true ∨
       (Char.ofNat 97).isLower = true ∨
       Char.ofNat 97 ∈ (['-', '_', ':', '+', '/'] : List Char)) :=
  is_ident_characterization 97 (by decide)

/-- C6: attribute selectors parse to the operator-specific node:
`[n]` yields `Attribute(n)`; `[n=v]` yields `AttributeValue(n, v)`;
`[n~=v]` / `[n^=v]` / `[n$=v]` / `[n*=v]` yield the corresponding operator
nodes; a value opened with one quote and closed with the other makes the
whole parse produce no selector; a properly quoted value parses like
the unquoted one; and when the closing quote is not directly followed by
`]` the whole parse also produces no selector. -/
theorem attribute_selectors_parse (n v : List Nat) (hne : n ≠ [])
    (hn : ∀ x ∈ n, is_ident x = true) (hv : ∀ x ∈ v, is_ident x = true) :
    run_selector (91 :: (n ++ [93])) =
      some (some (.Attribute n),
        { input := 91 :: (n ++ [93]), idx := n.length + 2 }) ∧
    run_selector (91 :: (n ++ 61 :: (v ++ [93]))) =
      some (some (.AttributeValue n v),
        { input := 91 :: (n ++ 61 :: (v ++ [93])),
          idx := n.length + v.length + 3 }) ∧
    run_selector (91 :: (n ++ 126 :: 61 :: (v ++ [93]))) =
      some (some (.AttributeValueWhitespacedContains n v),
        { input := 91 :: (n ++ 126 :: 61 :: (v ++ [93])),
          idx := n.length + v.length + 4 }) ∧
    run_selector (91 :: (n ++ 94 :: 61 :: (v ++ [93]))) =
      some (some (.AttributeValueStartsWith n v),
        { input := 91 :: (n ++ 94 :: 61 :: (v ++ [93])),
          idx := n.length + v.length + 4 }) ∧
    run_selector (91 :: (n ++ 36 :: 61 :: (v ++ [93]))) =
      some (some (.AttributeValueEndsWith n v),
        { input := 91 :: (n ++ 36 :: 61 :: (v ++ [93])),
          idx := n.length + v.length + 4 }) ∧
    run_selector (91 :: (n ++ 42 :: 61 :: (v ++ [93]))) =
      some (some (.AttributeValueSubstring n v),
        { input := 91 :: (n ++ 42 :: 61 :: (v ++ [93])),
          idx := n.length + v.length + 4 }) ∧
    run_selector (91 :: (n ++ 61 :: 39 :: (v ++ 34 :: [93]))) =
      some (none,
        { input := 91 :: (n ++ 61 :: 39 :: (v ++ 34 :: [93])),
          idx := n.length + v.length + 3 }) ∧
    run_selector (91 :: (n ++ 61 :: 34 :: (v ++ 34 :: 93 :: []))) =
      some (some (.AttributeValue n v),
        { input := 91 :: (n ++ 61 :: 34 :: (v ++ 34 :: 93 :: [])),
          idx := n.length + v.length + 5 }) ∧
    (∀ (d : Nat) (rest : List Nat), d ≠ 93 →
      run_selector (91 :: (n ++ 61 :: 39 :: (v ++ 39 :: d :: rest))) =
        some (none,
          { input := 91 :: (n ++ 61 :: 39 :: (v ++ 39 :: d :: rest)),
            idx := n.length + v.length + 4 })) := by
  refine ⟨?_, ?_, ?_, ?_, ?_, ?_, ?_, ?_, ?_⟩
  · -- [n]
    have hd0 : (⟨91 :: (n ++ [93]), 0⟩ : Stream).input.drop
        (⟨91 :: (n ++ [93]), 0⟩ : Stream).idx = 91 :: (n ++ [93]) := rfl
    have hd1 : (⟨91 :: (n ++ [93]), 1⟩ : Stream).input.drop
        (⟨91 :: (n ++ [93]), 1⟩ : Stream).idx = n ++ 93 :: [] := rfl
    have hpa := pa_plain hd1 hn
    have hd2 : (91 :: (n ++ [93])).drop (1 + n.length) = [93] := by
      simpa using drop_shift hd1
    have hd3 : (91 :: (n ++ [93])).drop (1 + n.length + 1) = [] :=
      drop_succ_of_drop_cons hd2
    have heof : (⟨91 :: (n ++ [93]), 1 + n.length + 1⟩ : Stream).current =
        none := current_of_drop_nil hd3
    have hcomp : parse_compound_selector ⟨91 :: (n ++ [93]), 0⟩ =
        (some (.Attribute n), ⟨91 :: (n ++ [93]), 1 + n.length + 1⟩) :=
      compound_attr_eof hd0 hpa heof
    have hfin := selector_of_single hcomp heof
      (show 3 ≤ selectorBound (91 :: (n ++ [93])) by unfold selectorBound; omega)
    unfold run_selector
    rw [hfin]
    simp <;> omega
  · -- [n=v]
    have hd0 : (⟨91 :: (n ++ 61 :: (v ++ [93])), 0⟩ : Stream).input.drop
        (⟨91 :: (n ++ 61 :: (v ++ [93])), 0⟩ : Stream).idx = 91 :: (n ++ 61 :: (v ++ [93])) := rfl
    have hd1 : (⟨91 :: (n ++ 61 :: (v ++ [93])), 1⟩ : Stream).input.drop
        (⟨91 :: (n ++ 61 :: (v ++ [93])), 1⟩ : Stream).idx = n ++ 61 :: (v ++ 93 :: []) := rfl
    have hpa := pa_eq_unquoted hd1 hn hv
    have hd2 : (91 :: (n ++ 61 :: (v ++ [93]))).drop (1 + n.length) = 61 :: (v ++ [93]) := by
      simpa using drop_shift hd1
    have hd3 : (91 :: (n ++ 61 :: (v ++ [93]))).drop (1 + n.length + 1) = v ++ [93] :=
      drop_succ_of_drop_cons hd2
    have hd4 : (91 :: (n ++ 61 :: (v ++ [93]))).drop (1 + n.length + 1 + v.length) = [93] := by
      simpa using drop_shift hd3
    have hd5 : (91 :: (n ++ 61 :: (v ++ [93]))).drop (1 + n.length + 1 + v.length + 1) = [] :=
      drop_succ_of_drop_cons hd4
    rw [show 1 + n.length + 1 + v.length + 1 =
      1 + n.length + v.length + 2 from by omega] at hd5
    have heof : (⟨91 :: (n ++ 61 :: (v ++ [93])), 1 + n.length + v.length + 2⟩ : Stream).current =
        none := current_of_drop_nil hd5
    have hcomp : parse_compound_selector ⟨91 :: (n ++ 61 :: (v ++ [93])), 0⟩ =
        (some (.AttributeValue n v), ⟨91 :: (n ++ 61 :: (v ++ [93])), 1 + n.length + v.length + 2⟩) :=
      compound_attr_eof hd0 hpa heof
    have hfin := selector_of_single hcomp heof
      (show 3 ≤ selectorBound (91 :: (n ++ 61 :: (v ++ [93]))) by unfold selectorBound; omega)
    unfold run_selector
    rw [hfin]
    simp <;> omega
  · -- [n~=v]
    have hd0 : (⟨91 :: (n ++ 126 :: 61 :: (v ++ [93])), 0⟩ : Stream).input.drop
        (⟨91 :: (n ++ 126 :: 61 :: (v ++ [93])), 0⟩ : Stream).idx = 91 :: (n ++ 126 :: 61 :: (v ++ [93])) := rfl
    have hd1 : (⟨91 :: (n ++ 126 :: 61 :: (v ++ [93])), 1⟩ : Stream).input.drop
        (⟨91 :: (n ++ 126 :: 61 :: (v ++ [93])), 1⟩ : Stream).idx = n ++ 126 :: 61 :: (v ++ 93 :: []) := rfl
    have hpa : parse_attribute ⟨91 :: (n ++ 126 :: 61 :: (v ++ [93])), 1⟩ =
        (some (.AttributeValueWhitespacedContains n v), ⟨91 :: (n ++ 126 :: 61 :: (v ++ [93])), 1 + n.length + v.length + 3⟩) :=
      pa_op (Or.inl rfl) hd1 hn hv
    have hd2 : (91 :: (n ++ 126 :: 61 :: (v ++ [93]))).drop (1 + n.length) = 126 :: 61 :: (v ++ [93]) := by
      simpa using drop_shift hd1
    have hd3 := drop_succ_of_drop_cons hd2
    have hd4 := drop_succ_of_drop_cons hd3
    have hd5 : (91 :: (n ++ 126 :: 61 :: (v ++ [93]))).drop (1 + n.length + 1 + 1 + v.length) = [93] := by
      simpa using drop_shift hd4
    have hd6 := drop_succ_of_drop_cons hd5
    rw [show 1 + n.length + 1 + 1 + v.length + 1 =
      1 + n.length + v.length + 3 from by omega] at hd6
    have heof : (⟨91 :: (n ++ 126 :: 61 :: (v ++ [93])), 1 + n.length + v.length + 3⟩ : Stream).current =
        none := current_of_drop_nil hd6
    have hcomp : parse_compound_selector ⟨91 :: (n ++ 126 :: 61 :: (v ++ [93])), 0⟩ =
        (some (.AttributeValueWhitespacedContains n v), ⟨91 :: (n ++ 126 :: 61 :: (v ++ [93])), 1 + n.length + v.length + 3⟩) :=
      compound_attr_eof hd0 hpa heof
    have hfin := selector_of_single hcomp heof
      (show 3 ≤ selectorBound (91 :: (n ++ 126 :: 61 :: (v ++ [93]))) by unfold selectorBound; omega)
    unfold run_selector
    rw [hfin]
    simp <;> omega
  · -- [n^=v]
    have hd0 : (⟨91 :: (n ++ 94 :: 61 :: (v ++ [93])), 0⟩ : Stream).input.drop
        (⟨91 :: (n ++ 94 :: 61 :: (v ++ [93])), 0⟩ : Stream).idx = 91 :: (n ++ 94 :: 61 :: (v ++ [93])) := rfl
    have hd1 : (⟨91 :: (n ++ 94 :: 61 :: (v ++ [93])), 1⟩ : Stream).input.drop
        (⟨91 :: (n ++ 94 :: 61 :: (v ++ [93])), 1⟩ : Stream).idx = n ++ 94 :: 61 :: (v ++ 93 :: []) := rfl
    have hpa : parse_attribute ⟨91 :: (n ++ 94 :: 61 :: (v ++ [93])), 1⟩ =
        (some (.AttributeValueStartsWith n v), ⟨91 :: (n ++ 94 :: 61 :: (v ++ [93])), 1 + n.length + v.length + 3⟩) :=
      pa_op (Or.inr (Or.inl rfl)) hd1 hn hv
    have hd2 : (91 :: (n ++ 94 :: 61 :: (v ++ [93]))).drop (1 + n.length) = 94 :: 61 :: (v ++ [93]) := by
      simpa using drop_shift hd1
    have hd3 := drop_succ_of_drop_cons hd2
    have hd4 := drop_succ_of_drop_cons hd3
    have hd5 : (91 :: (n ++ 94 :: 61 :: (v ++ [93]))).drop (1 + n.length + 1 + 1 + v.length) = [93] := by
      simpa using drop_shift hd4
    have hd6 := drop_succ_of_drop_cons hd5
    rw [show 1 + n.length + 1 + 1 + v.length + 1 =
      1 + n.length + v.length + 3 from by omega] at hd6
    have heof : (⟨91 :: (n ++ 94 :: 61 :: (v ++ [93])), 1 + n.length + v.length + 3⟩ : Stream).current =
        none := current_of_drop_nil hd6
    have hcomp : parse_compound_selector ⟨91 :: (n ++ 94 :: 61 :: (v ++ [93])), 0⟩ =
        (some (.AttributeValueStartsWith n v), ⟨91 :: (n ++ 94 :: 61 :: (v ++ [93])), 1 + n.length + v.length + 3⟩) :=
      compound_attr_eof hd0 hpa heof
    have hfin := selector_of_single hcomp heof
      (show 3 ≤ selectorBound (91 :: (n ++ 94 :: 61 :: (v ++ [93]))) by unfold selectorBound; omega)
    unfold run_selector
    rw [hfin]
    simp <;> omega
  · -- [n$=v]
    have hd0 : (⟨91 :: (n ++ 36 :: 61 :: (v ++ [93])), 0⟩ : Stream).input.drop
        (⟨91 :: (n ++ 36 :: 61 :: (v ++ [93])), 0⟩ : Stream).idx = 91 :: (n ++ 36 :: 61 :: (v ++ [93])) := rfl
    have hd1 : (⟨91 :: (n ++ 36 :: 61 :: (v ++ [93])), 1⟩ : Stream).input.drop
        (⟨91 :: (n ++ 36 :: 61 :: (v ++ [93])), 1⟩ : Stream).idx = n ++ 36 :: 61 :: (v ++ 93 :: []) := rfl
    have hpa : parse_attribute ⟨91 :: (n ++ 36 :: 61 :: (v ++ [93])), 1⟩ =
        (some (.AttributeValueEndsWith n v), ⟨91 :: (n ++ 36 :: 61 :: (v ++ [93])), 1 + n.length + v.length + 3⟩) :=
      pa_op (Or.inr (Or.inr (Or.inl rfl))) hd1 hn hv
    have hd2 : (91 :: (n ++ 36 :: 61 :: (v ++ [93]))).drop (1 + n.length) = 36 :: 61 :: (v ++ [93]) := by
      simpa using drop_shift hd1
    have hd3 := drop_succ_of_drop_cons hd2
    have hd4 := drop_succ_of_drop_cons hd3
    have hd5 : (91 :: (n ++ 36 :: 61 :: (v ++ [93]))).drop (1 + n.length + 1 + 1 + v.length) = [93] := by
      simpa using drop_shift hd4
    have hd6 := drop_succ_of_drop_cons hd5
    rw [show 1 + n.length + 1 + 1 + v.length + 1 =
      1 + n.length + v.length + 3 from by omega] at hd6
    have heof : (⟨91 :: (n ++ 36 :: 61 :: (v ++ [93])), 1 + n.length + v.length + 3⟩ : Stream).current =
        none := current_of_drop_nil hd6
    have hcomp : parse_compound_selector ⟨91 :: (n ++ 36 :: 61 :: (v ++ [93])), 0⟩ =
        (some (.AttributeValueEndsWith n v), ⟨91 :: (n ++ 36 :: 61 :: (v ++ [93])), 1 + n.length + v.length + 3⟩) :=
      compound_attr_eof hd0 hpa heof
    have hfin := selector_of_single hcomp heof
      (show 3 ≤ selectorBound (91 :: (n ++ 36 :: 61 :: (v ++ [93]))) by unfold selectorBound; omega)
    unfold run_selector
    rw [hfin]
    simp <;> omega
  · -- [n*=v]
    have hd0 : (⟨91 :: (n ++ 42 :: 61 :: (v ++ [93])), 0⟩ : Stream).input.drop
        (⟨91 :: (n ++ 42 :: 61 :: (v ++ [93])), 0⟩ : Stream).idx = 91 :: (n ++ 42 :: 61 :: (v ++ [93])) := rfl
    have hd1 : (⟨91 :: (n ++ 42 :: 61 :: (v ++ [93])), 1⟩ : Stream).input.drop
        (⟨91 :: (n ++ 42 :: 61 :: (v ++ [93])), 1⟩ : Stream).idx = n ++ 42 :: 61 :: (v ++ 93 :: []) := rfl
    have hpa : parse_attribute ⟨91 :: (n ++ 42 :: 61 :: (v ++ [93])), 1⟩ =
        (some (.AttributeValueSubstring n v), ⟨91 :: (n ++ 42 :: 61 :: (v ++ [93])), 1 + n.length + v.length + 3⟩) :=
      pa_op (Or.inr (Or.inr (Or.inr rfl))) hd1 hn hv
    have hd2 : (91 :: (n ++ 42 :: 61 :: (v ++ [93]))).drop (1 + n.length) = 42 :: 61 :: (v ++ [93]) := by
      simpa using drop_shift hd1
    have hd3 := drop_succ_of_drop_cons hd2
    have hd4 := drop_succ_of_drop_cons hd3
    have hd5 : (91 :: (n ++ 42 :: 61 :: (v ++ [93]))).drop (1 + n.length + 1 + 1 + v.length) = [93] := by
      simpa using drop_shift hd4
    have hd6 := drop_succ_of_drop_cons hd5
    rw [show 1 + n.length + 1 + 1 + v.length + 1 =
      1 + n.length + v.length + 3 from by omega] at hd6
    have heof : (⟨91 :: (n ++ 42 :: 61 :: (v ++ [93])), 1 + n.length + v.length + 3⟩ : Stream).current =
        none := current_of_drop_nil hd6
    have hcomp : parse_compound_selector ⟨91 :: (n ++ 42 :: 61 :: (v ++ [93])), 0⟩ =
        (some (.AttributeValueSubstring n v), ⟨91 :: (n ++ 42 :: 61 :: (v ++ [93])), 1 + n.length + v.length + 3⟩) :=
      compound_attr_eof hd0 hpa heof
    have hfin := selector_of_single hcomp heof
      (show 3 ≤ selectorBound (91 :: (n ++ 42 :: 61 :: (v ++ [93]))) by unfold selectorBound; omega)
    unfold run_selector
    rw [hfin]
    simp <;> omega
  · -- [n='v"] : mismatched quotes make the whole parse fail
    have hd0 : (⟨91 :: (n ++ 61 :: 39 :: (v ++ 34 :: [93])), 0⟩ : Stream).input.drop
        (⟨91 :: (n ++ 61 :: 39 :: (v ++ 34 :: [93])), 0⟩ : Stream).idx = 91 :: (n ++ 61 :: 39 :: (v ++ 34 :: [93])) := rfl
    have hd1 : (⟨91 :: (n ++ 61 :: 39 :: (v ++ 34 :: [93])), 1⟩ : Stream).input.drop
        (⟨91 :: (n ++ 61 :: 39 :: (v ++ 34 :: [93])), 1⟩ : Stream).idx = n ++ 61 :: 39 :: (v ++ 34 :: [93]) := rfl
    have hpa := pa_eq_mismatch (Or.inr rfl) (by decide) (by decide) hd1 hn hv
    have hss : simpleStep ⟨91 :: (n ++ 61 :: 39 :: (v ++ 34 :: [93])), 0⟩ =
        (none, ⟨91 :: (n ++ 61 :: 39 :: (v ++ 34 :: [93])), 1 + n.length + v.length + 2⟩) := by
      rw [ss_bracket hd0]
      exact hpa
    have hcomp : parse_compound_selector ⟨91 :: (n ++ 61 :: 39 :: (v ++ 34 :: [93])), 0⟩ =
        (none, ⟨91 :: (n ++ 61 :: 39 :: (v ++ 34 :: [93])), 1 + n.length + v.length + 2⟩) :=
      compound_none_of_stop
        (skip_whitespaces_nospace (by rw [current_of_drop hd0]; simp)) hss
    obtain ⟨f, hf⟩ : ∃ f, selectorBound (91 :: (n ++ 61 :: 39 :: (v ++ 34 :: [93]))) = f + 1 :=
      ⟨selectorBound (91 :: (n ++ 61 :: 39 :: (v ++ 34 :: [93]))) - 1, by unfold selectorBound; omega⟩
    have hfge : 1 ≤ f := by
      unfold selectorBound at hf
      omega
    unfold run_selector
    rw [hf, selector_none_start (complex_none hcomp (by omega))]
    simp <;> omega
  · -- [n="v"] : matching quotes parse
    have hd0 : (⟨91 :: (n ++ 61 :: 34 :: (v ++ 34 :: 93 :: [])), 0⟩ : Stream).input.drop
        (⟨91 :: (n ++ 61 :: 34 :: (v ++ 34 :: 93 :: [])), 0⟩ : Stream).idx = 91 :: (n ++ 61 :: 34 :: (v ++ 34 :: 93 :: [])) := rfl
    have hd1 : (⟨91 :: (n ++ 61 :: 34 :: (v ++ 34 :: 93 :: [])), 1⟩ : Stream).input.drop
        (⟨91 :: (n ++ 61 :: 34 :: (v ++ 34 :: 93 :: [])), 1⟩ : Stream).idx = n ++ 61 :: 34 :: (v ++ 34 :: 93 :: []) := rfl
    have hpa := pa_eq_quoted (Or.inl rfl) hd1 hn hv
    have hd2 : (91 :: (n ++ 61 :: 34 :: (v ++ 34 :: 93 :: []))).drop (1 + n.length) = 61 :: 34 :: (v ++ 34 :: 93 :: []) := by
      simpa using drop_shift hd1
    have hd3 := drop_succ_of_drop_cons hd2
    have hd4 := drop_succ_of_drop_cons hd3
    have hd5 : (91 :: (n ++ 61 :: 34 :: (v ++ 34 :: 93 :: []))).drop (1 + n.length + 1 + 1 + v.length) = 34 :: 93 :: [] := by
      simpa using drop_shift hd4
    have hd6 := drop_succ_of_drop_cons hd5
    have hd7 := drop_succ_of_drop_cons hd6
    rw [show 1 + n.length + 1 + 1 + v.length + 1 + 1 =
      1 + n.length + v.length + 4 from by omega] at hd7
    have heof : (⟨91 :: (n ++ 61 :: 34 :: (v ++ 34 :: 93 :: [])), 1 + n.length + v.length + 4⟩ : Stream).current =
        none := current_of_drop_nil hd7
    have hcomp : parse_compound_selector ⟨91 :: (n ++ 61 :: 34 :: (v ++ 34 :: 93 :: [])), 0⟩ =
        (some (.AttributeValue n v), ⟨91 :: (n ++ 61 :: 34 :: (v ++ 34 :: 93 :: [])), 1 + n.length + v.length + 4⟩) :=
      compound_attr_eof hd0 hpa heof
    have hfin := selector_of_single hcomp heof
      (show 3 ≤ selectorBound (91 :: (n ++ 61 :: 34 :: (v ++ 34 :: 93 :: []))) by unfold selectorBound; omega)
    unfold run_selector
    rw [hfin]
    simp <;> omega
  · -- [n='v'd…] with d ≠ ']' : the missing close bracket fails the parse
    intro d rest hdne
    have hd0 : (⟨91 :: (n ++ 61 :: 39 :: (v ++ 39 :: d :: rest)), 0⟩ : Stream).input.drop
        (⟨91 :: (n ++ 61 :: 39 :: (v ++ 39 :: d :: rest)), 0⟩ : Stream).idx = 91 :: (n ++ 61 :: 39 :: (v ++ 39 :: d :: rest)) := rfl
    have hd1 : (⟨91 :: (n ++ 61 :: 39 :: (v ++ 39 :: d :: rest)), 1⟩ : Stream).input.drop
        (⟨91 :: (n ++ 61 :: 39 :: (v ++ 39 :: d :: rest)), 1⟩ : Stream).idx = n ++ 61 :: 39 :: (v ++ 39 :: d :: rest) := rfl
    have hpa := pa_eq_noclose (Or.inr rfl) hdne hd1 hn hv
    have hss : simpleStep ⟨91 :: (n ++ 61 :: 39 :: (v ++ 39 :: d :: rest)), 0⟩ =
        (none, ⟨91 :: (n ++ 61 :: 39 :: (v ++ 39 :: d :: rest)), 1 + n.length + v.length + 3⟩) := by
      rw [ss_bracket hd0]
      exact hpa
    have hcomp : parse_compound_selector ⟨91 :: (n ++ 61 :: 39 :: (v ++ 39 :: d :: rest)), 0⟩ =
        (none, ⟨91 :: (n ++ 61 :: 39 :: (v ++ 39 :: d :: rest)), 1 + n.length + v.length + 3⟩) :=
      compound_none_of_stop
        (skip_whitespaces_nospace (by rw [current_of_drop hd0]; simp)) hss
    obtain ⟨f, hf⟩ : ∃ f, selectorBound (91 :: (n ++ 61 :: 39 :: (v ++ 39 :: d :: rest))) = f + 1 :=
      ⟨selectorBound (91 :: (n ++ 61 :: 39 :: (v ++ 39 :: d :: rest))) - 1, by unfold selectorBound; omega⟩
    have hfge : 1 ≤ f := by
      unfold selectorBound at hf
      omega
    unfold run_selector
    rw [hf, selector_none_start (complex_none hcomp (by omega))]
    simp <;> omega

/-- C6 witness: the attribute forms at `n` = `h`, `v` = `b`. -/
theorem attribute_selectors_parse_at_hb :
    run_selector (91 :: ([104] ++ [93])) =
      some (some (.Attribute [104]),
        { input := 91 :: ([104] ++ [93]), idx := [104].length + 2 }) ∧
    run_selector (91 :: ([104] ++ 61 :: ([98] ++ [93]))) =
      some (some (.AttributeValue [104] [98]),
        { input := 91 :: ([104] ++ 61 :: ([98] ++ [93])),
          idx := [104].length + [98].length + 3 }) ∧
    run_selector (91 :: ([104] ++ 126 :: 61 :: ([98] ++ [93]))) =
      some (some (.AttributeValueWhitespacedContains [104] [98]),
        { input := 91 :: ([104] ++ 126 :: 61 :: ([98] ++ [93])),
          idx := [104].length + [98].length + 4 }) ∧
    run_selector (91 :: ([104] ++ 94 :: 61 :: ([98] ++ [93]))) =
      some (some (.AttributeValueStartsWith [104] [98]),
        { input := 91 :: ([104] ++ 94 :: 61 :: ([98] ++ [93])),
          idx := [104].length + [98].length + 4 }) ∧
    run_selector (91 :: ([104] ++ 36 :: 61 :: ([98] ++ [93]))) =
      some (some (.AttributeValueEndsWith [104] [98]),
        { input := 91 :: ([104] ++ 36 :: 61 :: ([98] ++ [93])),
          idx := [104].length + [98].length + 4 }) ∧
    run_selector (91 :: ([104] ++ 42 :: 61 :: ([98] ++ [93]))) =
      some (some (.AttributeValueSubstring [104] [98]),
        { input := 91 :: ([104] ++ 42 :: 61 :: ([98] ++ [93])),
          idx := [104].length + [98].length + 4 }) ∧
    run_selector (91 :: ([104] ++ 61 :: 39 :: ([98] ++ 34 :: [93]))) =
      some (none,
        { input := 91 :: ([104] ++ 61 :: 39 :: ([98] ++ 34 :: [93])),
          idx := [104].length + [98].length + 3 }) ∧
    run_selector (91 :: ([104] ++ 61 :: 34 :: ([98] ++ 34 :: 93 :: []))) =
      some (some (.AttributeValue [104] [98]),
        { input := 91 :: ([104] ++ 61 :: 34 :: ([98] ++ 34 :: 93 :: [])),
          idx := [104].length + [98].length + 5 }) ∧
    run_selector (91 :: ([104] ++ 61 :: 39 :: ([98] ++ 39 :: 120 :: [93]))) =
      some (none,
        { input := 91 :: ([104] ++ 61 :: 39 :: ([98] ++ 39 :: 120 :: [93])),
          idx := [104].length + [98].length + 4 }) := by
  have h := attribute_selectors_parse [104] [98] (by decide) (by decide) (by decide)
  exact ⟨h.1, h.2.1, h.2.2.1, h.2.2.2.1, h.2.2.2.2.1, h.2.2.2.2.2.1,
    h.2.2.2.2.2.2.1, h.2.2.2.2.2.2.2.1, h.2.2.2.2.2.2.2.2 120 [93] (by decide)⟩

/-- C7: a comma-separated selector list parses to a left-associated `Or`:
for identifier components, `a, b` parses to `Or(Tag a, Tag b)` and
`a, b, c` to `Or(Or(Tag a, Tag b), Tag c)`. -/
theorem selector_list_is_left_assoc_or (a b c : List Nat)
    (hnea : a ≠ []) (hneb : b ≠ []) (hnec : c ≠ [])
    (ha : ∀ x ∈ a, is_ident x = true) (hb : ∀ x ∈ b, is_ident x = true)
    (hc : ∀ x ∈ c, is_ident x = true) :
    run_selector (a ++ 44 :: 32 :: b) =
      some (some (.Or (.Tag a) (.Tag b)),
        { input := a ++ 44 :: 32 :: b, idx := a.length + 2 + b.length }) ∧
    run_selector (a ++ 44 :: 32 :: (b ++ 44 :: 32 :: c)) =
      some (some (.Or (.Or (.Tag a) (.Tag b)) (.Tag c)),
        { input := a ++ 44 :: 32 :: (b ++ 44 :: 32 :: c),
          idx := a.length + 2 + b.length + 2 + c.length }) := by
  constructor
  · -- two components
    have hd0 : (⟨a ++ 44 :: 32 :: b, 0⟩ : Stream).input.drop
        (⟨a ++ 44 :: 32 :: b, 0⟩ : Stream).idx = a ++ (44 :: 32 :: b) := by
      simp
    have hcompa : parse_compound_selector ⟨a ++ 44 :: 32 :: b, 0⟩ =
        (some (.Tag a), ⟨a ++ 44 :: 32 :: b, a.length⟩) := by
      simpa using compound_tag hd0 hnea ha compoundStop_44
    have hd1 : (a ++ 44 :: 32 :: b).drop a.length = 44 :: 32 :: b := by
      simpa using drop_shift hd0
    have hadv : (⟨a ++ 44 :: 32 :: b, a.length⟩ : Stream).advance =
        ⟨a ++ 44 :: 32 :: b, a.length + 1⟩ := by
      simpa using advance_of_drop hd1
    have hd2 : (a ++ 44 :: 32 :: b).drop (a.length + 1) = 32 :: b :=
      drop_succ_of_drop_cons hd1
    have hd2' : (⟨a ++ 44 :: 32 :: b, a.length + 1⟩ : Stream).input.drop
        (⟨a ++ 44 :: 32 :: b, a.length + 1⟩ : Stream).idx =
        List.replicate 1 32 ++ (b ++ []) := by simpa using hd2
    have hcompb : parse_compound_selector ⟨a ++ 44 :: 32 :: b, a.length + 1⟩ =
        (some (.Tag b), ⟨a ++ 44 :: 32 :: b, a.length + 1 + 1 + b.length⟩) := by
      simpa using compound_tag_spaces hd2' hneb hb compoundStop_nil
    have hd3 : (a ++ 44 :: 32 :: b).drop (a.length + 1 + 1) = b ++ [] := by
      rw [List.append_nil]
      exact drop_succ_of_drop_cons hd2
    have heofb : (⟨a ++ 44 :: 32 :: b,
        a.length + 1 + 1 + b.length⟩ : Stream).current = none :=
      current_of_drop_nil (by simpa using drop_shift hd3)
    obtain ⟨g, hB⟩ : ∃ g, selectorBound (a ++ 44 :: 32 :: b) = g + 2 :=
      ⟨selectorBound (a ++ 44 :: 32 :: b) - 2, by unfold selectorBound; omega⟩
    have hg : 2 ≤ g := by
      unfold selectorBound at hB
      omega
    have hcpx1 : parse_complex_selector (g + 1) false ⟨a ++ 44 :: 32 :: b, 0⟩ =
        some (some (.Tag a), ⟨a ++ 44 :: 32 :: b, a.length + 1⟩) := by
      have := complex_to_comma hcompa (current_of_drop hd1) (f := g + 1)
        (by omega)
      rw [hadv] at this
      exact this
    have hcpx2 : parse_complex_selector g false
        ⟨a ++ 44 :: 32 :: b, a.length + 1⟩ =
        some (some (.Tag b),
          ⟨a ++ 44 :: 32 :: b, a.length + 1 + 1 + b.length⟩) :=
      complex_single_eof hcompb heofb (by omega)
    unfold run_selector
    rw [hB, show g + 2 = (g + 1) + 1 from rfl, selector_step hcpx1]
    obtain ⟨g1, rfl⟩ : ∃ g1, g = g1 + 1 := ⟨g - 1, by omega⟩
    rw [selectorLoop_step hcpx2]
    exact selectorLoop_eof heofb (by omega)
  · -- three components
    have hd0 : (⟨a ++ 44 :: 32 :: (b ++ 44 :: 32 :: c), 0⟩ : Stream).input.drop
        (⟨a ++ 44 :: 32 :: (b ++ 44 :: 32 :: c), 0⟩ : Stream).idx =
        a ++ (44 :: 32 :: (b ++ 44 :: 32 :: c)) := by simp
    have hcompa : parse_compound_selector
        ⟨a ++ 44 :: 32 :: (b ++ 44 :: 32 :: c), 0⟩ =
        (some (.Tag a), ⟨a ++ 44 :: 32 :: (b ++ 44 :: 32 :: c), a.length⟩) := by
      simpa using compound_tag hd0 hnea ha compoundStop_44
    have hd1 : (a ++ 44 :: 32 :: (b ++ 44 :: 32 :: c)).drop a.length =
        44 :: 32 :: (b ++ 44 :: 32 :: c) := by
      simpa using drop_shift hd0
    have hadv : (⟨a ++ 44 :: 32 :: (b ++ 44 :: 32 :: c), a.length⟩ :
        Stream).advance =
        ⟨a ++ 44 :: 32 :: (b ++ 44 :: 32 :: c), a.length + 1⟩ := by
      simpa using advance_of_drop hd1
    have hd2 : (a ++ 44 :: 32 :: (b ++ 44 :: 32 :: c)).drop (a.length + 1) =
        32 :: (b ++ 44 :: 32 :: c) := drop_succ_of_drop_cons hd1
    have hd2' : (⟨a ++ 44 :: 32 :: (b ++ 44 :: 32 :: c), a.length + 1⟩ :
        Stream).input.drop
        (⟨a ++ 44 :: 32 :: (b ++ 44 :: 32 :: c), a.length + 1⟩ : Stream).idx =
        List.replicate 1 32 ++ (b ++ (44 :: 32 :: c)) := by simpa using hd2
    have hcompb : parse_compound_selector
        ⟨a ++ 44 :: 32 :: (b ++ 44 :: 32 :: c), a.length + 1⟩ =
        (some (.Tag b),
          ⟨a ++ 44 :: 32 :: (b ++ 44 :: 32 :: c),
            a.length + 1 + 1 + b.length⟩) := by
      simpa using compound_tag_spaces hd2' hneb hb compoundStop_44
    have hd3 : (a ++ 44 :: 32 :: (b ++ 44 :: 32 :: c)).drop
        (a.length + 1 + 1) = b ++ (44 :: 32 :: c) :=
      drop_succ_of_drop_cons hd2
    have hd4 : (a ++ 44 :: 32 :: (b ++ 44 :: 32 :: c)).drop
        (a.length + 1 + 1 + b.length) = 44 :: 32 :: c := by
      simpa using drop_shift hd3
    have hadv2 : (⟨a ++ 44 :: 32 :: (b ++ 44 :: 32 :: c),
        a.length + 1 + 1 + b.length⟩ : Stream).advance =
        ⟨a ++ 44 :: 32 :: (b ++ 44 :: 32 :: c),
          a.length + 1 + 1 + b.length + 1⟩ := by
      simpa using advance_of_drop hd4
    have hd5 : (a ++ 44 :: 32 :: (b ++ 44 :: 32 :: c)).drop
        (a.length + 1 + 1 + b.length + 1) = 32 :: c :=
      drop_succ_of_drop_cons hd4
    have hd5' : (⟨a ++ 44 :: 32 :: (b ++ 44 :: 32 :: c),
        a.length + 1 + 1 + b.length + 1⟩ : Stream).input.drop
        (⟨a ++ 44 :: 32 :: (b ++ 44 :: 32 :: c),
          a.length + 1 + 1 + b.length + 1⟩ : Stream).idx =
        List.replicate 1 32 ++ (c ++ []) := by simpa using hd5
    have hcompc : parse_compound_selector
        ⟨a ++ 44 :: 32 :: (b ++ 44 :: 32 :: c),
          a.length + 1 + 1 + b.length + 1⟩ =
        (some (.Tag c),
          ⟨a ++ 44 :: 32 :: (b ++ 44 :: 32 :: c),
            a.length + 1 + 1 + b.length + 1 + 1 + c.length⟩) := by
      simpa using compound_tag_spaces hd5' hnec hc compoundStop_nil
    have hd6 : (a ++ 44 :: 32 :: (b ++ 44 :: 32 :: c)).drop
        (a.length + 1 + 1 + b.length + 1 + 1) = c ++ [] := by
      rw [List.append_nil]
      exact drop_succ_of_drop_cons hd5
    have heofc : (⟨a ++ 44 :: 32 :: (b ++ 44 :: 32 :: c),
        a.length + 1 + 1 + b.length + 1 + 1 + c.length⟩ : Stream).current =
        none := current_of_drop_nil (by simpa using drop_shift hd6)
    obtain ⟨h, hB⟩ : ∃ h, selectorBound (a ++ 44 :: 32 :: (b ++ 44 :: 32 :: c)) =
        h + 3 :=
      ⟨selectorBound (a ++ 44 :: 32 :: (b ++ 44 :: 32 :: c)) - 3, by
        unfold selectorBound; omega⟩
    have hh : 2 ≤ h := by
      unfold selectorBound at hB
      have hL : (a ++ 44 :: 32 :: (b ++ 44 :: 32 :: c)).length =
          a.length + (b ++ 44 :: 32 :: c).length + 2 := by
        simp only [List.length_append, List.length_cons]
        omega
      omega
    have hcpx1 : parse_complex_selector (h + 2) false
        ⟨a ++ 44 :: 32 :: (b ++ 44 :: 32 :: c), 0⟩ =
        some (some (.Tag a),
          ⟨a ++ 44 :: 32 :: (b ++ 44 :: 32 :: c), a.length + 1⟩) := by
      have := complex_to_comma hcompa (current_of_drop hd1) (f := h + 2)
        (by omega)
      rw [hadv] at this
      exact this
    have hcpx2 : parse_complex_selector (h + 1) false
        ⟨a ++ 44 :: 32 :: (b ++ 44 :: 32 :: c), a.length + 1⟩ =
        some (some (.Tag b),
          ⟨a ++ 44 :: 32 :: (b ++ 44 :: 32 :: c),
            a.length + 1 + 1 + b.length + 1⟩) := by
      have := complex_to_comma hcompb (current_of_drop hd4) (f := h + 1)
        (by omega)
      rw [hadv2] at this
      exact this
    have hcpx3 : parse_complex_selector h false
        ⟨a ++ 44 :: 32 :: (b ++ 44 :: 32 :: c),
          a.length + 1 + 1 + b.length + 1⟩ =
        some (some (.Tag c),
          ⟨a ++ 44 :: 32 :: (b ++ 44 :: 32 :: c),
            a.length + 1 + 1 + b.length + 1 + 1 + c.length⟩) :=
      complex_single_eof hcompc heofc (by omega)
    unfold run_selector
    rw [hB, show h + 3 = (h + 2) + 1 from rfl, selector_step hcpx1,
      show h + 2 = (h + 1) + 1 from rfl, selectorLoop_step hcpx2]
    obtain ⟨h1, rfl⟩ : ∃ h1, h = h1 + 1 := ⟨h - 1, by omega⟩
    rw [selectorLoop_step hcpx3]
    exact selectorLoop_eof heofc (by omega)

/-- C7 witness: `a, b` and `a, b, c` with one-letter identifiers. -/
theorem selector_list_left_assoc_or_at_abc :
    run_selector ([97] ++ 44 :: 32 :: [98]) =
      some (some (.Or (.Tag [97]) (.Tag [98])),
        { input := [97] ++ 44 :: 32 :: [98],
          idx := [97].length + 2 + [98].length }) ∧
    run_selector ([97] ++ 44 :: 32 :: ([98] ++ 44 :: 32 :: [99])) =
      some (some (.Or (.Or (.Tag [97]) (.Tag [98])) (.Tag [99])),
        { input := [97] ++ 44 :: 32 :: ([98] ++ 44 :: 32 :: [99]),
          idx := [97].length + 2 + [98].length + 2 + [99].length }) :=
  selector_list_is_left_assoc_or [97] [98] [99] (by decide) (by decide)
    (by decide) (by decide) (by decide) (by decide)

/-- C8 counterexample: a lone `#` does form a selector: `read_identifier`
returns an empty identifier and the parser yields `Id("")`. -/
theorem counterexample_lone_hash_parses :
    run_selector (bytes "#") =
      some (some (.Id []), { input := bytes "#", idx := 1 }) := by
  decide

/-- C8 amended: identifiers may be empty: `#` or `.` followed by
end-of-input or a non-identifier byte still forms a simple selector whose
name is empty (`Id("")` / `Class("")`). -/
theorem empty_identifier_simple_selectors :
    run_selector (bytes ".") =
      some (some (.Class []), { input := bytes ".", idx := 1 }) ∧
    run_selector (bytes "#,") =
      some (some (.Id []), { input := bytes "#,", idx := 2 }) := by
  constructor
  · decide
  · decide

/-- C9: only the space byte 0x20 is whitespace: `skip_whitespaces` consumes
exactly the run of 0x20 bytes (reporting whether there was at least one),
and a tab/newline/carriage-return between two compound selectors is not a
descendant combinator: the parse ends at that byte with no selector. -/
theorem only_space_is_whitespace :
    (∀ (s : Stream) (k : Nat) (rest : List Nat),
        s.input.drop s.idx = List.replicate k 32 ++ rest →
        rest.head? ≠ some 32 →
        skip_whitespaces s = (decide (0 < k), { s with idx := s.idx + k })) ∧
    (∀ w, w = 9 ∨ w = 10 ∨ w = 13 →
        run_selector [97, w, 98] =
          some (none, { input := [97, w, 98], idx := 1 })) := by
  constructor
  · exact fun s k rest hd hstop => skip_whitespaces_spec hd hstop
  · intro w hw
    rcases hw with rfl | rfl | rfl <;> decide

/-- C9 witness: two leading spaces before `a` are consumed; a tab after `a`
ends the parse with no selector. -/
theorem only_space_is_whitespace_witness :
    skip_whitespaces { input := [32, 32, 97], idx := 0 } =
      (decide (0 < 2), { input := [32, 32, 97], idx := 0 + 2 }) ∧
    run_selector [97, 9, 98] =
      some (none, { input := [97, 9, 98], idx := 1 }) :=
  ⟨only_space_is_whitespace.1 { input := [32, 32, 97], idx := 0 } 2 [97]
      (by decide) (by decide),
    only_space_is_whitespace.2 9 (Or.inl rfl)⟩

/-- C10: both `unreachable!()` arms of the selector parser are dead: the
combinator dispatch of `parse_complex_selector` never reaches its
catch-all for any token byte and flag value, and the operator dispatch of
`parse_attribute` never reaches its catch-all for the operator bytes the
surrounding match binds (`~` `^` `$` `*`). -/
theorem unreachable_arms_are_dead :
    (∀ (tok : Nat) (hw : Bool),
        complexDispatch tok hw ≠ ComplexStep.unreach) ∧
    (∀ c : Nat, c = 126 ∨ c = 94 ∨ c = 36 ∨ c = 42 →
        attrOpDispatch c ≠ AttrOp.unreach) :=
  ⟨complexDispatch_ne_unreach, fun _ hc => attrOpDispatch_ne_unreach hc⟩

/-- C10 witness: the dispatches at concrete inputs. -/
theorem unreachable_arms_are_dead_witness :
    complexDispatch 62 true ≠ ComplexStep.unreach ∧
      attrOpDispatch 126 ≠ AttrOp.unreach :=
  ⟨unreachable_arms_are_dead.1 62 true,
    unreachable_arms_are_dead.2 126 (Or.inl rfl)⟩

end TL
